import Mathlib

/-!
Verification of the bracelet-solver constraint compiler (`solver.py`).

The program models a friendship bracelet as a grid of knot, edge and
initial-string nodes, creates one typed z3 variable per node attribute,
and generates boolean constraints over those variables.

Solver variables are identified by name: `z3.Const(name, sort)` yields the
same variable whenever name and sort coincide.  The f-string names used by
the source (`f"enter_left_{i}_{j}"`, `f"left_edge_{j}"`, ...) are injective
in their numeric arguments and the name families have pairwise distinct
shapes, so variable identity is modelled faithfully by the inductive type
`VarName` with one constructor per name family.

Python code that can raise (attribute access on a node kind that lacks the
attribute, dict lookups that can fail with KeyError) is modelled with
`Option`.
-/

/-- The two-valued color sort (`z3.EnumSort "Color"`). -/
inductive Color
  | black
  | white
deriving DecidableEq, Repr

/-- The four-valued knot sort (`z3.EnumSort "KnotType"`); `LR`, `RL`, `LL`,
`RR` are the Python names bound to the four constants. -/
inductive KnotType
  | LR
  | RL
  | LL
  | RR
deriving DecidableEq, Repr

/-- Solver variable names: one constructor per f-string family used by
`setup_grid`, with the numeric arguments of the f-string. -/
inductive VarName
  | initial_string_color (j : Nat)
  | left_edge (j : Int)
  | right_edge (j : Int)
  | enter_left (i j : Int)
  | enter_right (i j : Int)
  | exit_left (i j : Int)
  | exit_right (i j : Int)
  | knot (i j : Int)
  | color (i j : Int)
deriving DecidableEq, Repr

/-- `KnotNode`: an interior crossing with six independent variables. -/
structure KnotNode where
  i : Int
  j : Int
  enter_left : VarName
  enter_right : VarName
  exit_left : VarName
  exit_right : VarName
  knot : VarName
  color : VarName
deriving DecidableEq, Repr

def KnotNode.id (n : KnotNode) : Int × Int := (n.i, n.j)

/-- `EdgeNode`: a reflection point; all five attribute views alias the one
variable `enter_and_exit`. -/
structure EdgeNode where
  i : Int
  j : Int
  enter_and_exit : VarName
deriving DecidableEq, Repr

def EdgeNode.exit_left (n : EdgeNode) : VarName := n.enter_and_exit

def EdgeNode.exit_right (n : EdgeNode) : VarName := n.enter_and_exit

def EdgeNode.enter_left (n : EdgeNode) : VarName := n.enter_and_exit

def EdgeNode.enter_right (n : EdgeNode) : VarName := n.enter_and_exit

def EdgeNode.color (n : EdgeNode) : VarName := n.enter_and_exit

def EdgeNode.id (n : EdgeNode) : Int × Int := (n.i, n.j)

/-- `InitialStringNode`: the top of a starting string; both exit views alias
`color`, and it has no `enter_left`/`enter_right` attribute. -/
structure InitialStringNode where
  i : Int
  j : Int
  color : VarName
deriving DecidableEq, Repr

def InitialStringNode.exit_left (n : InitialStringNode) : VarName := n.color

def InitialStringNode.exit_right (n : InitialStringNode) : VarName := n.color

def InitialStringNode.id (n : InitialStringNode) : Int × Int := (n.i, n.j)

/-- The tagged union of the three node kinds. -/
inductive Node
  | knot (n : KnotNode)
  | edge (n : EdgeNode)
  | str (n : InitialStringNode)
deriving DecidableEq, Repr

def Node.id : Node → Int × Int
  | .knot n => n.id
  | .edge n => n.id
  | .str n => n.id

def Node.i : Node → Int
  | .knot n => n.i
  | .edge n => n.i
  | .str n => n.i

def Node.j : Node → Int
  | .knot n => n.j
  | .edge n => n.j
  | .str n => n.j

/-- `exit_left` is defined on every node kind. -/
def Node.exit_left : Node → VarName
  | .knot n => n.exit_left
  | .edge n => n.exit_left
  | .str n => n.exit_left

/-- `exit_right` is defined on every node kind. -/
def Node.exit_right : Node → VarName
  | .knot n => n.exit_right
  | .edge n => n.exit_right
  | .str n => n.exit_right

/-- `enter_left` exists on knot and edge nodes only; accessing it on an
`InitialStringNode` raises `AttributeError` in Python, modelled by `none`. -/
def Node.enter_left? : Node → Option VarName
  | .knot n => some n.enter_left
  | .edge n => some n.enter_left
  | .str _ => none

/-- `enter_right` exists on knot and edge nodes only (see `enter_left?`). -/
def Node.enter_right? : Node → Option VarName
  | .knot n => some n.enter_right
  | .edge n => some n.enter_right
  | .str _ => none

/-- Python dict assignment `d[k] = v`: replaces the entry in place when the
key is present, otherwise appends; iteration order is insertion order. -/
def insertAssoc {α : Type} (l : List ((Int × Int) × α)) (k : Int × Int) (v : α) :
    List ((Int × Int) × α) :=
  if l.any (fun p => p.1 == k) then
    l.map (fun p => if p.1 == k then (k, v) else p)
  else l ++ [(k, v)]

/-- The grid: insertion-ordered maps from coordinates to nodes, plus the
per-kind submaps maintained by `Grid.add`. -/
structure Grid where
  width : Nat
  height : Nat
  nodes : List ((Int × Int) × Node) := []
  knot_nodes : List ((Int × Int) × KnotNode) := []
  edge_nodes : List ((Int × Int) × EdgeNode) := []
  string_nodes : List ((Int × Int) × InitialStringNode) := []
deriving Repr

/-- `Grid.add`: store the node under its id in `nodes` and in the submap of
its kind. -/
def Grid.add (g : Grid) (node : Node) : Grid :=
  let g' := { g with nodes := insertAssoc g.nodes node.id node }
  match node with
  | .knot n => { g' with knot_nodes := insertAssoc g'.knot_nodes n.id n }
  | .edge n => { g' with edge_nodes := insertAssoc g'.edge_nodes n.id n }
  | .str n => { g' with string_nodes := insertAssoc g'.string_nodes n.id n }

def Grid.upper_left_index (_g : Grid) (i j : Int) : Int × Int :=
  if i == 1 then (i - 1, j - 1) else (i - 2, j - 2)

def Grid.upper_right_index (_g : Grid) (i j : Int) : Int × Int :=
  if i == 1 then (i - 1, j + 1) else (i - 2, j + 2)

/-- Dict lookup `self.nodes[k]` as an `Option` (`none` = KeyError). -/
def Grid.find? (g : Grid) (k : Int × Int) : Option Node :=
  (g.nodes.find? (fun p => p.1 == k)).map (fun p => p.2)

def Grid.has_upper_left (g : Grid) (node : Node) : Bool :=
  (g.find? (g.upper_left_index node.i node.j)).isSome

def Grid.has_upper_right (g : Grid) (node : Node) : Bool :=
  (g.find? (g.upper_right_index node.i node.j)).isSome

def Grid.upper_left (g : Grid) (node : Node) : Option Node :=
  g.find? (g.upper_left_index node.i node.j)

def Grid.upper_right (g : Grid) (node : Node) : Option Node :=
  g.find? (g.upper_right_index node.i node.j)

/-- Whether the grid geometry places a knot at `(i, j)`. -/
def Grid.knot_at (g : Grid) (i j : Int) : Bool :=
  let on_edge := j == 0 || j == (g.width : Int) - 1
  let on_left_staggered := i % 4 == 1 && j % 4 == 2
  let on_right_staggered := i % 4 == 3 && j % 4 == 0
  !on_edge && (on_left_staggered || on_right_staggered)

/-- `itertools.groupby` of the knot nodes by row index: maximal runs of
consecutive entries with equal row index. -/
def Grid.knot_rows (g : Grid) : List (List ((Int × Int) × KnotNode)) :=
  g.knot_nodes.splitBy (fun a b => a.1.1 == b.1.1)

/-- Loop body of the initial-strings loop of `setup_grid`.  The Python loop
variable `j` leaks across loops, so the state threads the current value of
`j` next to the grid. -/
def stringStep (s : Grid × Int) (j : Nat) : Grid × Int :=
  (s.1.add (.str { i := 0, j := 2 * (j : Int) + 1, color := .initial_string_color j }),
   (j : Int))

/-- Loop body of the inner knot loop of `setup_grid` for row `i`. -/
def knotLoopStep (i : Nat) (s : Grid × Int) (j : Nat) : Grid × Int :=
  ((if s.1.knot_at (i : Int) (j : Int) then
      s.1.add (.knot
        { i := (i : Int), j := (j : Int),
          enter_left := .enter_left (i : Int) (j : Int),
          enter_right := .enter_right (i : Int) (j : Int),
          exit_left := .exit_left (i : Int) (j : Int),
          exit_right := .exit_right (i : Int) (j : Int),
          knot := .knot (i : Int) (j : Int),
          color := .color (i : Int) (j : Int) })
    else s.1),
   (j : Int))

/-- Loop body of the row loop of `setup_grid`: edge nodes on rows with
`i % 4 == 3` (their variable names use the leaked loop variable `j` carried
in `s.2`), then the inner knot loop. -/
def rowStep (num_strings : Nat) (s : Grid × Int) (i : Nat) : Grid × Int :=
  let s : Grid × Int :=
    if (i : Int) % 4 == 3 then
      ((s.1.add (.edge { i := (i : Int), j := 0, enter_and_exit := .left_edge s.2 })).add
         (.edge { i := (i : Int), j := 2 * (num_strings : Int),
                  enter_and_exit := .right_edge s.2 }),
       s.2)
    else s
  (List.range s.1.width).foldl (knotLoopStep i) s

/-- Translation of `setup_grid`: the initial-strings loop followed by the
row loop. -/
def setup_grid (num_strings num_rows : Nat) : Grid :=
  let width := 2 * num_strings + 1
  let height := 2 * num_rows
  let grid0 : Grid := { width := width, height := height }
  let s : Grid × Int := (List.range num_strings).foldl stringStep (grid0, 0)
  let s : Grid × Int := (List.range height).foldl (rowStep num_strings) s
  s.1

/-- The constraint language produced by the generators: equality of two
color variables, equality of a color variable with a constant, and the
guarded implication `z3.If(kv == k, z3.And eqs, True)`. -/
inductive Constraint
  | ceqc (a b : VarName)
  | cvalc (a : VarName) (c : Color)
  | kguard (kv : VarName) (k : KnotType) (eqs : List (VarName × VarName))
deriving DecidableEq, Repr

/-- A total assignment of values to the typed solver variables (a z3 model):
color-sorted variables receive a `Color`, knot-sorted variables a
`KnotType`. -/
structure Assignment where
  cval : VarName → Color
  kval : VarName → KnotType

/-- Truth of a constraint under an assignment. -/
def Constraint.sat (σ : Assignment) : Constraint → Bool
  | .ceqc a b => decide (σ.cval a = σ.cval b)
  | .cvalc a c => decide (σ.cval a = c)
  | .kguard kv k eqs =>
      if σ.kval kv = k then eqs.all (fun p => decide (σ.cval p.1 = σ.cval p.2))
      else true

/-- The at-most-two flow-conservation constraints contributed by one node
(the body of the first loop of `setup_constraints`).  `none` models a raised
exception: an `InitialStringNode` has no `enter_left`/`enter_right`
attribute. -/
def nodeFlow (g : Grid) (node : Node) : Option (List Constraint) :=
  (if g.has_upper_left node then
    node.enter_left?.bind fun el =>
      (g.upper_left node).map fun p => [Constraint.ceqc el p.exit_right]
   else some []).bind fun c1 =>
  (if g.has_upper_right node then
    node.enter_right?.bind fun er =>
      (g.upper_right node).map fun p => [Constraint.ceqc er p.exit_left]
   else some []).map fun c2 => c1 ++ c2

/-- The four guarded knot-semantics constraints of one `KnotNode`, in source
order (LR, RL, LL, RR). -/
def knotConstraints (n : KnotNode) : List Constraint :=
  [ .kguard n.knot .LR
      [(n.exit_right, n.enter_left), (n.exit_left, n.enter_right), (n.color, n.enter_left)],
    .kguard n.knot .RL
      [(n.exit_left, n.enter_right), (n.exit_right, n.enter_left), (n.color, n.enter_right)],
    .kguard n.knot .LL
      [(n.exit_left, n.enter_left), (n.exit_right, n.enter_right), (n.color, n.enter_left)],
    .kguard n.knot .RR
      [(n.exit_left, n.enter_left), (n.exit_right, n.enter_right), (n.color, n.enter_right)] ]

/-- Translation of `setup_constraints`: flow-conservation constraints for
every node, then the four knot-semantics constraints for every knot node. -/
def setup_constraints (g : Grid) : Option (List Constraint) :=
  (g.nodes.foldlM (fun acc p => (nodeFlow g p.2).map (fun cs => acc ++ cs)) []).map
    (fun flow => g.knot_nodes.foldl (fun acc p => acc ++ knotConstraints p.2) flow)

/-- Python `abs` on integers. -/
def iabs (a : Int) : Int := if a < 0 then -a else a

/-- One iteration of the `setup_serpinski_constraints` loop over
`grid.knot_nodes.items()`; the accumulator carries the constraint list and
the `serpinski` dict of recorded parity values.  A failed dict lookup of a
predecessor value (Python KeyError) yields `none`. -/
def serpStep (g : Grid) (mid : Int)
    (acc : List Constraint × List ((Int × Int) × Nat))
    (p : (Int × Int) × KnotNode) :
    Option (List Constraint × List ((Int × Int) × Nat)) :=
  let x := p.1.1
  let y := p.1.2
  if iabs (y - mid) == x - 3 then
    some (acc.1 ++ [.cvalc p.2.color .black], acc.2 ++ [((x, y), 1)])
  else if iabs (y - mid) < x - 3 then
    match acc.2.lookup (g.upper_left_index p.2.id.1 p.2.id.2),
          acc.2.lookup (g.upper_right_index p.2.id.1 p.2.id.2) with
    | some ul, some ur =>
        let v := (ul + ur) % 2
        some (acc.1 ++ [.cvalc p.2.color (if v == 1 then .black else .white)],
              acc.2 ++ [((x, y), v)])
    | _, _ => none
  else some acc

/-- Translation of `setup_serpinski_constraints`, also returning the final
`serpinski` value dict.  The source computes `mid = (grid.width - 1) / 2`
with float division; every grid built by `setup_grid` has odd width, so the
division is exact and integer division agrees with it. -/
def setup_serpinski_run (g : Grid) :
    Option (List Constraint × List ((Int × Int) × Nat)) :=
  let mid : Int := ((g.width : Int) - 1) / 2
  g.knot_nodes.foldlM (serpStep g mid) ([], [])

/-- The constraint list produced by `setup_serpinski_constraints`. -/
def setup_serpinski_constraints (g : Grid) : Option (List Constraint) :=
  (setup_serpinski_run g).map (fun r => r.1)

/-- The fixed decode table from knot-type values to instruction letters. -/
def knot_names : KnotType → String
  | .LR => "A"
  | .RL => "B"
  | .LL => "C"
  | .RR => "D"

/-- The fixed decode table from colors to color names. -/
def color_names : Color → String
  | .white => "PeachPuff"
  | .black => "PaleVioletRed"

/-- Rendering of one knot row (the loop body over `grid.knot_rows()` in
`__main__`): the instruction letters joined by `_`, prefixed by the gap
marker when the first knot column is not 2 and suffixed by it when the last
knot column is not `width - 3`.  Groups produced by `Grid.knot_rows` are
never empty; the `[]` case is unreachable. -/
def renderRow (g : Grid) (σ : Assignment) : List ((Int × Int) × KnotNode) → String
  | [] => ""
  | h :: t =>
    let first_col := h.1.2
    let last_col := ((h :: t).getLast (List.cons_ne_nil h t)).1.2
    let start := if first_col == 2 then "" else "_"
    let stop := if last_col == (g.width : Int) - 3 then "" else "_"
    start ++ String.intercalate "_" ((h :: t).map (fun p => knot_names (σ.kval p.2.knot))) ++ stop

/-- The knot node placed at `(i, j)` by `setup_grid`, with its six variables
named after the coordinates. -/
def mkKnotNode (i j : Int) : KnotNode :=
  { i := i, j := j,
    enter_left := .enter_left i j, enter_right := .enter_right i j,
    exit_left := .exit_left i j, exit_right := .exit_right i j,
    knot := .knot i j, color := .color i j }

/-- The body of `Grid.knot_at` as a function of the width. -/
def knotAtL (width : Nat) (i j : Int) : Bool :=
  !(j == 0 || j == (width : Int) - 1) &&
    ((i % 4 == 1 && j % 4 == 2) || (i % 4 == 3 && j % 4 == 0))

/-- Closed form of the initial-string nodes of `setup_grid num_strings _`. -/
def stringNodesL (ns : Nat) : List ((Int × Int) × InitialStringNode) :=
  (List.range ns).map fun (j : Nat) =>
    ((0, 2 * (j : Int) + 1),
     { i := 0, j := 2 * (j : Int) + 1, color := .initial_string_color j })

/-- Closed form of the knot nodes placed in row `i` by `setup_grid`. -/
def rowKnotsL (width : Nat) (i : Nat) : List ((Int × Int) × KnotNode) :=
  (List.range width).filterMap fun (j : Nat) =>
    if knotAtL width (i : Int) (j : Int) then
      some (((i : Int), (j : Int)), mkKnotNode (i : Int) (j : Int))
    else none

/-- Closed form of the edge nodes placed in row `i` by `setup_grid`: two
nodes on rows with `i % 4 == 3`, whose shared-variable names mention the
leaked loop value `width - 1 = 2 * ns`. -/
def edgeRowL (ns : Nat) (i : Nat) : List ((Int × Int) × EdgeNode) :=
  if (i : Int) % 4 == 3 then
    [(((i : Int), 0), { i := (i : Int), j := 0, enter_and_exit := .left_edge (2 * (ns : Int)) }),
     (((i : Int), 2 * (ns : Int)),
      { i := (i : Int), j := 2 * (ns : Int), enter_and_exit := .right_edge (2 * (ns : Int)) })]
  else []

/-- Closed form of all nodes placed in row `i` by `setup_grid` (edges first,
then knots, matching insertion order). -/
def rowNodesL (ns : Nat) (i : Nat) : List ((Int × Int) × Node) :=
  (edgeRowL ns i).map (fun p => (p.1, Node.edge p.2)) ++
    (rowKnotsL (2 * ns + 1) i).map (fun p => (p.1, Node.knot p.2))

/-- Closed form of the whole grid built by `setup_grid ns nr` (proved equal
to it in `setup_grid_eq` below); unlike the fold in `setup_grid` it is
cheap for the kernel to evaluate. -/
def gridL (ns nr : Nat) : Grid :=
  { width := 2 * ns + 1, height := 2 * nr,
    nodes := (stringNodesL ns).map (fun p => (p.1, Node.str p.2)) ++
      (List.range (2 * nr)).flatMap (rowNodesL ns),
    knot_nodes := (List.range (2 * nr)).flatMap (rowKnotsL (2 * ns + 1)),
    edge_nodes := (List.range (2 * nr)).flatMap (edgeRowL ns),
    string_nodes := stringNodesL ns }

/-- The (exit_left, exit_right, color) triple forced by the knot-semantics
branch for knot type `k` on entering colors `(a, b)`: LR and RL swap the two
threads, LL and RR pass them straight through; LR and LL expose the left
entering color, RL and RR the right one (cf. `knotConstraints`). -/
def knotStep (k : KnotType) (a b : Color) : Color × Color × Color :=
  match k with
  | .LR => (b, a, a)
  | .RL => (b, a, b)
  | .LL => (a, b, a)
  | .RR => (a, b, b)

/-- Opposite color. -/
def negC : Color → Color
  | .black => .white
  | .white => .black

/-- Color of initial string number `k` in the explicit satisfying assignment:
strings alternate black, white, black, ... -/
def scColor (k : Int) : Color := if k % 2 == 0 then .black else .white

/-- In the explicit satisfying assignment every knot in row `x` exits the
black thread on the right and the white thread on the left on rows
`x % 4 = 1`, and the other way around on rows `x % 4 = 3`.  `rowF x` is the
`exit_right` color of row `x`. -/
def rowF (x : Int) : Color := if x % 4 == 1 then .black else .white

/-- An explicit assignment satisfying the structural and serpinski
constraints of a grid built by `setup_grid`: initial strings alternate
colors, every knot receives one black and one white thread and reorders its
exits according to `rowF`, and every knot exposes the serpinski target color
when the serpinski generator constrains it (possible because its two
entering colors always differ). -/
def eLA (x y : Int) : Color :=
  if x == 1 then scColor ((y - 2) / 2)
  else if y == 2 then .white
  else rowF (x - 2)

/-- `enter_right` color of the knot at `(x, y)` in the explicit satisfying
assignment (`w` is the grid width). -/
def eRA (w x y : Int) : Color :=
  if x == 1 then scColor (y / 2)
  else if y == w - 3 then .black
  else negC (rowF (x - 2))

/-- `color` value of the knot at `(x, y)` in the explicit satisfying
assignment: the serpinski target color when the generator recorded a parity
value there, the entering left color otherwise. -/
def colorAtA (table : List ((Int × Int) × Nat)) (x y : Int) : Color :=
  match table.lookup (x, y) with
  | some v => if v == 1 then .black else .white
  | none => eLA x y

/-- Knot type of the knot at `(x, y)` in the explicit satisfying assignment:
chosen so that the exits and the exposed color match the fixed
`exit_left`/`exit_right` values. -/
def kvalA (table : List ((Int × Int) × Nat)) (x y : Int) : KnotType :=
  let straight := negC (rowF x) == eLA x y
  if straight then
    (if colorAtA table x y == eLA x y then KnotType.LL else KnotType.RR)
  else
    (if colorAtA table x y == eLA x y then KnotType.LR else KnotType.RL)

def mkAssignment (ns nr : Nat) : Assignment :=
  let w : Int := (2 * ns + 1 : Nat)
  let table := ((setup_serpinski_run (gridL ns nr)).getD ([], [])).2
  { cval := fun v =>
      match v with
      | .initial_string_color k => scColor (k : Int)
      | .left_edge _ => .white
      | .right_edge _ => .black
      | .enter_left x y => eLA x y
      | .enter_right x y => eRA w x y
      | .exit_left x _ => negC (rowF x)
      | .exit_right x _ => rowF x
      | .color x y => colorAtA table x y
      | .knot _ _ => .black,
    kval := fun v =>
      match v with
      | .knot x y => kvalA table x y
      | _ => .LR }

theorem insertAssoc_of_not_mem {α : Type} {l : List ((Int × Int) × α)} {k : Int × Int} (v : α)
    (h : ∀ p ∈ l, p.1 ≠ k) : insertAssoc l k v = l ++ [(k, v)] := by
  unfold insertAssoc
  rw [if_neg]
  intro hc
  rw [List.any_eq_true] at hc
  obtain ⟨p, hp, he⟩ := hc
  exact h p hp (beq_iff_eq.mp he)

theorem Grid.add_knot (g : Grid) (n : KnotNode) :
    g.add (.knot n) = { g with nodes := insertAssoc g.nodes (n.i, n.j) (.knot n),
                               knot_nodes := insertAssoc g.knot_nodes (n.i, n.j) n } := rfl

theorem Grid.add_edge (g : Grid) (n : EdgeNode) :
    g.add (.edge n) = { g with nodes := insertAssoc g.nodes (n.i, n.j) (.edge n),
                               edge_nodes := insertAssoc g.edge_nodes (n.i, n.j) n } := rfl

theorem Grid.add_str (g : Grid) (n : InitialStringNode) :
    g.add (.str n) = { g with nodes := insertAssoc g.nodes (n.i, n.j) (.str n),
                              string_nodes := insertAssoc g.string_nodes (n.i, n.j) n } := rfl

theorem Grid.knot_at_eq (g : Grid) (i j : Int) : g.knot_at i j = knotAtL g.width i j := rfl

theorem mem_stringNodesL {ns : Nat} {p : (Int × Int) × InitialStringNode} :
    p ∈ stringNodesL ns ↔ ∃ j : Nat, j < ns ∧
      p = ((0, 2 * (j : Int) + 1),
           { i := 0, j := 2 * (j : Int) + 1, color := .initial_string_color j }) := by
  simp [stringNodesL, List.mem_map, List.mem_range, eq_comm]

def rowKnotsUpTo (w i m : Nat) : List ((Int × Int) × KnotNode) :=
  (List.range m).filterMap fun (j : Nat) =>
    if knotAtL w (i : Int) (j : Int) then
      some (((i : Int), (j : Int)), mkKnotNode (i : Int) (j : Int))
    else none

theorem mem_rowKnotsUpTo {w i m : Nat} {p : (Int × Int) × KnotNode} :
    p ∈ rowKnotsUpTo w i m ↔
      ∃ j : Nat, j < m ∧ knotAtL w (i : Int) (j : Int) = true ∧
        p = (((i : Int), (j : Int)), mkKnotNode (i : Int) (j : Int)) := by
  simp only [rowKnotsUpTo, List.mem_filterMap, List.mem_range]
  constructor
  · rintro ⟨j, hj, he⟩
    by_cases hk : knotAtL w (i : Int) (j : Int) <;> simp [hk] at he
    exact ⟨j, hj, hk, he.symm⟩
  · rintro ⟨j, hj, hk, he⟩
    exact ⟨j, hj, by simp [hk, he]⟩

theorem mem_rowKnotsL {w i : Nat} {p : (Int × Int) × KnotNode} :
    p ∈ rowKnotsL w i ↔
      ∃ j : Nat, j < w ∧ knotAtL w (i : Int) (j : Int) = true ∧
        p = (((i : Int), (j : Int)), mkKnotNode (i : Int) (j : Int)) :=
  mem_rowKnotsUpTo

theorem knotAtL_ne_zero {w : Nat} {i j : Int} (h : knotAtL w i j = true) :
    j ≠ 0 ∧ j ≠ (w : Int) - 1 ∧ (i % 4 = 1 ∧ j % 4 = 2 ∨ i % 4 = 3 ∧ j % 4 = 0) := by
  simp only [knotAtL, Bool.and_eq_true, Bool.not_eq_true', Bool.or_eq_false_iff,
    Bool.or_eq_true, beq_iff_eq, beq_eq_false_iff_ne] at h
  tauto

theorem strings_phase (w h ns : Nat) :
    (List.range ns).foldl stringStep ({ width := w, height := h }, 0) =
      ({ width := w, height := h,
         nodes := (stringNodesL ns).map (fun p => (p.1, Node.str p.2)),
         string_nodes := stringNodesL ns },
       if ns = 0 then 0 else (ns : Int) - 1) := by
  induction ns with
  | zero => simp [stringNodesL]
  | succ m ih =>
    rw [List.range_succ, List.foldl_append, ih]
    simp only [List.foldl_cons, List.foldl_nil, stringStep, Grid.add_str]
    rw [insertAssoc_of_not_mem, insertAssoc_of_not_mem]
    · have hs : stringNodesL (m + 1) = stringNodesL m ++
          [((0, 2 * (m : Int) + 1),
            { i := 0, j := 2 * (m : Int) + 1, color := .initial_string_color m })] := by
        simp [stringNodesL, List.range_succ]
      rw [hs]
      simp only [List.map_append, List.map_cons, List.map_nil, Prod.mk.injEq]
      refine ⟨trivial, ?_⟩
      simp only [Nat.add_eq_zero, one_ne_zero, and_false, if_false]
      push_cast
      ring
    · intro p hp
      rw [mem_stringNodesL] at hp
      obtain ⟨j, hj, he⟩ := hp
      subst he
      simp only [ne_eq, Prod.mk.injEq, not_and]
      intro _
      omega
    · intro p hp
      simp only [List.mem_map] at hp
      obtain ⟨q, hq, he⟩ := hp
      rw [mem_stringNodesL] at hq
      obtain ⟨j, hj, hqe⟩ := hq
      subst hqe he
      simp only [ne_eq, Prod.mk.injEq, not_and]
      intro _
      omega

theorem rowKnotsL_eq_upTo (w i : Nat) : rowKnotsL w i = rowKnotsUpTo w i w := rfl

theorem rowKnotsUpTo_succ (w i m : Nat) :
    rowKnotsUpTo w i (m + 1) = rowKnotsUpTo w i m ++
      (if knotAtL w (i : Int) (m : Int) then
        [(((i : Int), (m : Int)), mkKnotNode (i : Int) (m : Int))]
      else []) := by
  rw [rowKnotsUpTo, List.range_succ, List.filterMap_append]
  by_cases hk : knotAtL w (i : Int) (m : Int) <;> simp [hk, rowKnotsUpTo]

theorem knot_loop (i : Nat) (G : Grid) (j0 : Int) (m : Nat)
    (hfresh : ∀ (j : Nat), knotAtL G.width (i : Int) (j : Int) = true →
      ∀ p ∈ G.nodes, p.1 ≠ ((i : Int), (j : Int)))
    (hfreshk : ∀ (j : Nat), knotAtL G.width (i : Int) (j : Int) = true →
      ∀ p ∈ G.knot_nodes, p.1 ≠ ((i : Int), (j : Int))) :
    (List.range m).foldl (knotLoopStep i) (G, j0) =
      ({ G with
          nodes := G.nodes ++ (rowKnotsUpTo G.width i m).map (fun p => (p.1, Node.knot p.2)),
          knot_nodes := G.knot_nodes ++ rowKnotsUpTo G.width i m },
       if m = 0 then j0 else (m : Int) - 1) := by
  induction m with
  | zero => simp [rowKnotsUpTo]
  | succ m ih =>
    rw [List.range_succ, List.foldl_append, ih]
    simp only [List.foldl_cons, List.foldl_nil, knotLoopStep]
    rw [Grid.knot_at_eq]
    simp only []
    by_cases hk : knotAtL G.width (i : Int) (m : Int)
    · rw [if_pos hk, Grid.add_knot]
      dsimp only
      rw [insertAssoc_of_not_mem, insertAssoc_of_not_mem]
      · rw [rowKnotsUpTo_succ, if_pos hk]
        simp only [List.map_append, List.map_cons, List.map_nil, Prod.mk.injEq, mkKnotNode,
          List.append_assoc]
        refine ⟨trivial, ?_⟩
        simp only [Nat.add_eq_zero, one_ne_zero, and_false, if_false]
        push_cast
        ring
      · intro p hp
        simp only [List.mem_append] at hp
        rcases hp with hp | hp
        · exact hfreshk m hk p hp
        · rw [mem_rowKnotsUpTo] at hp
          obtain ⟨j, hj, _, he⟩ := hp
          subst he
          simp only [ne_eq, Prod.mk.injEq, mkKnotNode, not_and]
          intro _ hc
          exact absurd (by exact_mod_cast hc) (Nat.ne_of_lt hj)
      · intro p hp
        simp only [List.mem_append, List.mem_map] at hp
        rcases hp with hp | ⟨q, hq, he⟩
        · exact hfresh m hk p hp
        · rw [mem_rowKnotsUpTo] at hq
          obtain ⟨j, hj, _, hqe⟩ := hq
          subst hqe
          rw [← he]
          simp only [ne_eq, Prod.mk.injEq, mkKnotNode, not_and]
          intro _ hc
          exact absurd (by exact_mod_cast hc) (Nat.ne_of_lt hj)
    · rw [if_neg hk]
      rw [rowKnotsUpTo_succ, if_neg hk]
      simp only [List.append_nil, Prod.mk.injEq]
      refine ⟨trivial, ?_⟩
      simp only [Nat.add_eq_zero, one_ne_zero, and_false, if_false]
      push_cast
      ring

def gridUpTo (ns nr m : Nat) : Grid :=
  { width := 2 * ns + 1, height := 2 * nr,
    nodes := (stringNodesL ns).map (fun p => (p.1, Node.str p.2)) ++
      (List.range m).flatMap (rowNodesL ns),
    knot_nodes := (List.range m).flatMap (rowKnotsL (2 * ns + 1)),
    edge_nodes := (List.range m).flatMap (edgeRowL ns),
    string_nodes := stringNodesL ns }

theorem gridL_eq_upTo (ns nr : Nat) : gridL ns nr = gridUpTo ns nr (2 * nr) := rfl

theorem mem_edgeRowL {ns i : Nat} {p : (Int × Int) × EdgeNode} (h : p ∈ edgeRowL ns i) :
    (i : Int) % 4 = 3 ∧ p.1.1 = (i : Int) ∧ (p.1.2 = 0 ∨ p.1.2 = 2 * (ns : Int)) := by
  unfold edgeRowL at h
  by_cases hc : (i : Int) % 4 == 3
  · rw [if_pos hc] at h
    simp only [List.mem_cons, List.mem_singleton, List.not_mem_nil, or_false] at h
    refine ⟨beq_iff_eq.mp hc, ?_⟩
    rcases h with h | h <;> subst h <;> simp
  · rw [if_neg hc] at h
    exact absurd h (List.not_mem_nil p)

theorem fst_mem_rowNodesL {ns i : Nat} {p : (Int × Int) × Node} (h : p ∈ rowNodesL ns i) :
    p.1.1 = (i : Int) ∧ 1 ≤ i := by
  unfold rowNodesL at h
  rw [List.mem_append] at h
  rcases h with h | h
  · rw [List.mem_map] at h
    obtain ⟨q, hq, he⟩ := h
    obtain ⟨h3, h1, _⟩ := mem_edgeRowL hq
    subst he
    refine ⟨h1, ?_⟩
    omega
  · rw [List.mem_map] at h
    obtain ⟨q, hq, he⟩ := h
    rw [rowKnotsL_eq_upTo, mem_rowKnotsUpTo] at hq
    obtain ⟨j, _, hk, hqe⟩ := hq
    subst hqe he
    obtain ⟨_, _, hpar⟩ := knotAtL_ne_zero hk
    refine ⟨rfl, ?_⟩
    omega

theorem fst_mem_knotRows {w i : Nat} {p : (Int × Int) × KnotNode} (h : p ∈ rowKnotsL w i) :
    p.1.1 = (i : Int) := by
  rw [rowKnotsL_eq_upTo, mem_rowKnotsUpTo] at h
  obtain ⟨j, _, _, he⟩ := h
  subst he
  rfl

theorem nodes_key_bound {ns nr m : Nat} {p : (Int × Int) × Node}
    (h : p ∈ (gridUpTo ns nr m).nodes) : p.1.1 = 0 ∨ (1 ≤ p.1.1 ∧ p.1.1 < (m : Int)) := by
  unfold gridUpTo at h
  simp only [List.mem_append, List.mem_map, List.mem_flatMap, List.mem_range] at h
  rcases h with ⟨q, hq, he⟩ | ⟨i, hi, hp⟩
  · rw [mem_stringNodesL] at hq
    obtain ⟨j, _, hqe⟩ := hq
    subst hqe he
    left
    rfl
  · obtain ⟨he, h1⟩ := fst_mem_rowNodesL hp
    right
    rw [he]
    constructor
    · exact_mod_cast h1
    · exact_mod_cast hi

theorem knots_key_bound {ns nr m : Nat} {p : (Int × Int) × KnotNode}
    (h : p ∈ (gridUpTo ns nr m).knot_nodes) : p.1.1 < (m : Int) := by
  unfold gridUpTo at h
  simp only [List.mem_flatMap, List.mem_range] at h
  obtain ⟨i, hi, hp⟩ := h
  rw [fst_mem_knotRows hp]
  exact_mod_cast hi

theorem gridUpTo_width (ns nr m : Nat) : (gridUpTo ns nr m).width = 2 * ns + 1 := rfl

theorem edges_key_bound {ns nr m : Nat} {p : (Int × Int) × EdgeNode}
    (h : p ∈ (gridUpTo ns nr m).edge_nodes) : p.1.1 < (m : Int) := by
  unfold gridUpTo at h
  simp only [List.mem_flatMap, List.mem_range] at h
  obtain ⟨i, hi, hp⟩ := h
  obtain ⟨_, he, _⟩ := mem_edgeRowL hp
  rw [he]
  exact_mod_cast hi

theorem rows_phase (ns nr : Nat) (hns : 1 ≤ ns) (m : Nat) (j0 : Int) :
    (List.range m).foldl (rowStep ns) (gridUpTo ns nr 0, j0) =
      (gridUpTo ns nr m, if m = 0 then j0 else 2 * (ns : Int)) := by
  induction m with
  | zero => simp
  | succ m ih =>
    rw [List.range_succ, List.foldl_append, ih]
    simp only [List.foldl_cons, List.foldl_nil]
    rw [rowStep]
    by_cases hc : (m : Int) % 4 == 3
    · rw [if_pos hc]
      have hm3 : (m : Int) % 4 = 3 := beq_iff_eq.mp hc
      have hm : 3 ≤ m := by omega
      rw [if_neg (by omega : ¬(m = 0))]
      have f1 : ∀ p ∈ (gridUpTo ns nr m).nodes, p.1 ≠ ((m : Int), 0) := by
        intro p hp heq
        have hb := nodes_key_bound hp
        have : p.1.1 = (m : Int) := by rw [heq]
        omega
      have f2 : ∀ p ∈ (gridUpTo ns nr m).edge_nodes, p.1 ≠ ((m : Int), 0) := by
        intro p hp heq
        have hb := edges_key_bound hp
        have : p.1.1 = (m : Int) := by rw [heq]
        omega
      have f3 : ∀ p ∈ (gridUpTo ns nr m).nodes ++
          [(((m : Int), 0),
            Node.edge { i := (m : Int), j := 0, enter_and_exit := .left_edge (2 * (ns : Int)) })],
          p.1 ≠ ((m : Int), 2 * (ns : Int)) := by
        intro p hp
        rw [List.mem_append, List.mem_singleton] at hp
        rcases hp with hp | hp
        · intro heq
          have hb := nodes_key_bound hp
          have : p.1.1 = (m : Int) := by rw [heq]
          omega
        · subst hp
          simp only [ne_eq, Prod.mk.injEq, not_and]
          intro _ hcon
          omega
      have f4 : ∀ p ∈ (gridUpTo ns nr m).edge_nodes ++
          [(((m : Int), 0),
            ({ i := (m : Int), j := 0, enter_and_exit := .left_edge (2 * (ns : Int)) } : EdgeNode))],
          p.1 ≠ ((m : Int), 2 * (ns : Int)) := by
        intro p hp
        rw [List.mem_append, List.mem_singleton] at hp
        rcases hp with hp | hp
        · intro heq
          have hb := edges_key_bound hp
          have : p.1.1 = (m : Int) := by rw [heq]
          omega
        · subst hp
          simp only [ne_eq, Prod.mk.injEq, not_and]
          intro _ hcon
          omega
      have hAdd1 : (gridUpTo ns nr m).add
          (Node.edge { i := (m : Int), j := 0, enter_and_exit := .left_edge (2 * (ns : Int)) }) =
          { gridUpTo ns nr m with
              nodes := (gridUpTo ns nr m).nodes ++
                [(((m : Int), 0),
                  Node.edge { i := (m : Int), j := 0, enter_and_exit := .left_edge (2 * (ns : Int)) })],
              edge_nodes := (gridUpTo ns nr m).edge_nodes ++
                [(((m : Int), 0),
                  { i := (m : Int), j := 0, enter_and_exit := .left_edge (2 * (ns : Int)) })] } := by
        rw [Grid.add_edge]
        dsimp only
        rw [insertAssoc_of_not_mem _ f1, insertAssoc_of_not_mem _ f2]
      rw [hAdd1]
      have hAdd2 : ({ gridUpTo ns nr m with
              nodes := (gridUpTo ns nr m).nodes ++
                [(((m : Int), 0),
                  Node.edge { i := (m : Int), j := 0, enter_and_exit := .left_edge (2 * (ns : Int)) })],
              edge_nodes := (gridUpTo ns nr m).edge_nodes ++
                [(((m : Int), 0),
                  { i := (m : Int), j := 0, enter_and_exit := .left_edge (2 * (ns : Int)) })] } : Grid).add
          (Node.edge { i := (m : Int), j := 2 * (ns : Int),
                       enter_and_exit := .right_edge (2 * (ns : Int)) }) =
          { gridUpTo ns nr m with
              nodes := (gridUpTo ns nr m).nodes ++
                [(((m : Int), 0),
                  Node.edge { i := (m : Int), j := 0, enter_and_exit := .left_edge (2 * (ns : Int)) })] ++
                [(((m : Int), 2 * (ns : Int)),
                  Node.edge { i := (m : Int), j := 2 * (ns : Int),
                              enter_and_exit := .right_edge (2 * (ns : Int)) })],
              edge_nodes := (gridUpTo ns nr m).edge_nodes ++
                [(((m : Int), 0),
                  { i := (m : Int), j := 0, enter_and_exit := .left_edge (2 * (ns : Int)) })] ++
                [(((m : Int), 2 * (ns : Int)),
                  { i := (m : Int), j := 2 * (ns : Int),
                    enter_and_exit := .right_edge (2 * (ns : Int)) })] } := by
        rw [Grid.add_edge]
        dsimp only
        rw [insertAssoc_of_not_mem _ f3, insertAssoc_of_not_mem _ f4]
      rw [hAdd2]
      rw [knot_loop]
      · dsimp only
        simp only [gridUpTo_width, Prod.mk.injEq]
        constructor
        · have hedge : edgeRowL ns m =
              [(((m : Int), 0),
                { i := (m : Int), j := 0, enter_and_exit := .left_edge (2 * (ns : Int)) }),
               (((m : Int), 2 * (ns : Int)),
                { i := (m : Int), j := 2 * (ns : Int),
                  enter_and_exit := .right_edge (2 * (ns : Int)) })] := by
            rw [edgeRowL, if_pos hc]
          unfold gridUpTo rowNodesL
          rw [List.range_succ, List.flatMap_append, List.flatMap_singleton, List.flatMap_append,
            List.flatMap_singleton, List.flatMap_append, List.flatMap_singleton, hedge,
            rowKnotsL_eq_upTo]
          simp only [List.map_cons, List.map_nil, List.append_assoc, List.cons_append,
            List.nil_append, List.singleton_append]
        · rw [if_neg (by omega : ¬(2 * ns + 1 = 0)), if_neg (Nat.succ_ne_zero m)]
          push_cast
          ring
      · intro j hk p hp
        have hk' : knotAtL (2 * ns + 1) (m : Int) (j : Int) = true := hk
        have hp' : p ∈ (gridUpTo ns nr m).nodes ++
            [(((m : Int), 0),
              Node.edge { i := (m : Int), j := 0, enter_and_exit := .left_edge (2 * (ns : Int)) })] ++
            [(((m : Int), 2 * (ns : Int)),
              Node.edge { i := (m : Int), j := 2 * (ns : Int),
                          enter_and_exit := .right_edge (2 * (ns : Int)) })] := hp
        obtain ⟨hj0, hjw, hpar⟩ := knotAtL_ne_zero hk'
        simp only [List.mem_append, List.mem_singleton] at hp'
        rcases hp' with (hq | hq) | hq
        · intro heq
          have hb := nodes_key_bound hq
          have : p.1.1 = (m : Int) := by rw [heq]
          omega
        · subst hq
          simp only [ne_eq, Prod.mk.injEq, not_and]
          intro _ hcon
          exact hj0 hcon.symm
        · subst hq
          simp only [ne_eq, Prod.mk.injEq, not_and]
          intro _ hcon
          apply hjw
          rw [← hcon]
          push_cast
          ring
      · intro j hk p hp
        have hp' : p ∈ (gridUpTo ns nr m).knot_nodes := hp
        have hb := knots_key_bound hp'
        intro heq
        have : p.1.1 = (m : Int) := by rw [heq]
        omega
    · rw [if_neg hc]
      rw [knot_loop]
      · have hw : (gridUpTo ns nr m).width = 2 * ns + 1 := rfl
        rw [hw]
        simp only [Prod.mk.injEq]
        constructor
        · have hedge : edgeRowL ns m = [] := by rw [edgeRowL, if_neg hc]
          unfold gridUpTo rowNodesL
          rw [List.range_succ, List.flatMap_append, List.flatMap_singleton,
            List.flatMap_append, List.flatMap_singleton,
            List.flatMap_append, List.flatMap_singleton, hedge]
          simp only [List.map_nil, List.nil_append, List.append_nil, List.append_assoc,
            rowKnotsL_eq_upTo]
        · rw [if_neg (by omega : ¬(2 * ns + 1 = 0)), if_neg (Nat.succ_ne_zero m)]
          push_cast
          ring
      · intro j hk p hp
        have hb := nodes_key_bound hp
        obtain ⟨_, _, hpar⟩ := knotAtL_ne_zero hk
        intro heq
        have : p.1.1 = (m : Int) := by rw [heq]
        omega
      · intro j hk p hp
        have hb := knots_key_bound hp
        intro heq
        have : p.1.1 = (m : Int) := by rw [heq]
        omega

theorem setup_grid_eq (ns nr : Nat) (hns : 1 ≤ ns) : setup_grid ns nr = gridL ns nr := by
  unfold setup_grid
  show (List.foldl (rowStep ns)
      (List.foldl stringStep (({ width := 2 * ns + 1, height := 2 * nr } : Grid), 0)
        (List.range ns))
      (List.range (2 * nr))).1 = gridL ns nr
  rw [strings_phase]
  rw [if_neg (by omega : ¬(ns = 0))]
  have h0 : ({ width := 2 * ns + 1, height := 2 * nr,
               nodes := (stringNodesL ns).map (fun p => (p.1, Node.str p.2)),
               string_nodes := stringNodesL ns } : Grid) = gridUpTo ns nr 0 := by
    unfold gridUpTo
    simp
  rw [h0, rows_phase ns nr hns]
  rw [gridL_eq_upTo]

theorem flow_fold_some (g : Grid) (l : List ((Int × Int) × Node)) (acc : List Constraint)
    (h : ∀ p ∈ l, (nodeFlow g p.2).isSome) :
    l.foldlM (fun acc p => (nodeFlow g p.2).map (fun cs => acc ++ cs)) acc =
      some (acc ++ l.flatMap (fun p => (nodeFlow g p.2).getD [])) := by
  induction l generalizing acc with
  | nil => simp
  | cons p l ih =>
    rw [List.foldlM_cons]
    obtain ⟨cs, hcs⟩ := Option.isSome_iff_exists.mp (h p (List.mem_cons_self p l))
    rw [hcs]
    show List.foldlM _ (acc ++ cs) l = _
    rw [ih (acc ++ cs) (fun q hq => h q (List.mem_cons_of_mem p hq))]
    rw [List.flatMap_cons, hcs]
    simp [List.append_assoc]

theorem flow_fold_none (g : Grid) (l : List ((Int × Int) × Node)) (acc : List Constraint)
    (p : (Int × Int) × Node) (hp : p ∈ l) (h : nodeFlow g p.2 = none) :
    l.foldlM (fun acc p => (nodeFlow g p.2).map (fun cs => acc ++ cs)) acc = none := by
  induction l generalizing acc with
  | nil => exact absurd hp (List.not_mem_nil p)
  | cons q l ih =>
    rw [List.foldlM_cons]
    rcases List.mem_cons.mp hp with he | hm
    · subst he
      rw [h]
      rfl
    · cases hq : nodeFlow g q.2 with
      | none => rfl
      | some cs =>
        show List.foldlM _ (acc ++ cs) l = none
        exact ih (acc ++ cs) hm

theorem knot_fold_eq (l : List ((Int × Int) × KnotNode)) (acc : List Constraint) :
    l.foldl (fun acc p => acc ++ knotConstraints p.2) acc =
      acc ++ l.flatMap (fun p => knotConstraints p.2) := by
  induction l generalizing acc with
  | nil => simp
  | cons p l ih => rw [List.foldl_cons, ih, List.flatMap_cons, List.append_assoc]

/-- The constraints of `setup_constraints` in flat form: when no node's flow
generation raises, the result is the per-node flow constraints followed by
the per-knot semantics constraints. -/
theorem setup_constraints_eq (g : Grid)
    (h : ∀ p ∈ g.nodes, (nodeFlow g p.2).isSome) :
    setup_constraints g =
      some (g.nodes.flatMap (fun p => (nodeFlow g p.2).getD []) ++
        g.knot_nodes.flatMap (fun p => knotConstraints p.2)) := by
  unfold setup_constraints
  rw [flow_fold_some g g.nodes [] h]
  show some (List.foldl _ _ g.knot_nodes) = _
  rw [knot_fold_eq]
  simp

theorem nodeFlow_of_enters (g : Grid) (node : Node) (el er : VarName)
    (h1 : node.enter_left? = some el) (h2 : node.enter_right? = some er) :
    nodeFlow g node = some (
      ((g.upper_left node).map (fun q => Constraint.ceqc el q.exit_right)).toList ++
      ((g.upper_right node).map (fun q => Constraint.ceqc er q.exit_left)).toList) := by
  cases hUL : g.find? (g.upper_left_index node.i node.j) <;>
    cases hUR : g.find? (g.upper_right_index node.i node.j) <;>
      simp [nodeFlow, Grid.has_upper_left, Grid.has_upper_right, Grid.upper_left,
        Grid.upper_right, hUL, hUR, h1, h2]

theorem find?_gridL_neg_row (ns nr : Nat) (k : Int × Int) (hk : k.1 < 0) :
    (gridL ns nr).find? k = none := by
  unfold Grid.find?
  have hnone : (gridL ns nr).nodes.find? (fun p => p.1 == k) = none := by
    rw [List.find?_eq_none]
    intro p hp hc
    have hb := nodes_key_bound (p := p) (by rw [← gridL_eq_upTo]; exact hp)
    have he : p.1 = k := beq_iff_eq.mp hc
    rw [he] at hb
    omega
  rw [hnone]
  rfl

theorem nodeFlow_str_gridL (ns nr : Nat) (n : InitialStringNode) (hni : n.i = 0) :
    nodeFlow (gridL ns nr) (.str n) = some [] := by
  have h1 : (gridL ns nr).has_upper_left (.str n) = false := by
    unfold Grid.has_upper_left
    rw [show Node.i (.str n) = (0 : Int) from hni]
    rw [find?_gridL_neg_row]
    · rfl
    · unfold Grid.upper_left_index
      norm_num
  have h2 : (gridL ns nr).has_upper_right (.str n) = false := by
    unfold Grid.has_upper_right
    rw [show Node.i (.str n) = (0 : Int) from hni]
    rw [find?_gridL_neg_row]
    · rfl
    · unfold Grid.upper_right_index
      norm_num
  unfold nodeFlow
  rw [h1, h2]
  rfl

theorem mem_gridL_nodes {ns nr : Nat} {p : (Int × Int) × Node} :
    p ∈ (gridL ns nr).nodes ↔
      (∃ q ∈ stringNodesL ns, (q.1, Node.str q.2) = p) ∨
      (∃ i : Nat, i < 2 * nr ∧
        ((∃ q ∈ edgeRowL ns i, (q.1, Node.edge q.2) = p) ∨
         (∃ q ∈ rowKnotsL (2 * ns + 1) i, (q.1, Node.knot q.2) = p))) := by
  simp only [gridL, rowNodesL, List.mem_append, List.mem_map, List.mem_flatMap,
    List.mem_range]

theorem has_upper_left_row0 (ns nr : Nat) (node : Node) (h : node.i = 0) :
    (gridL ns nr).has_upper_left node = false := by
  unfold Grid.has_upper_left
  rw [h, find?_gridL_neg_row]
  · rfl
  · unfold Grid.upper_left_index
    norm_num

theorem has_upper_right_row0 (ns nr : Nat) (node : Node) (h : node.i = 0) :
    (gridL ns nr).has_upper_right node = false := by
  unfold Grid.has_upper_right
  rw [h, find?_gridL_neg_row]
  · rfl
  · unfold Grid.upper_right_index
    norm_num

theorem gridL_flow_isSome (ns nr : Nat) :
    ∀ p ∈ (gridL ns nr).nodes, (nodeFlow (gridL ns nr) p.2).isSome := by
  intro p hp
  rcases mem_gridL_nodes.mp hp with ⟨q, hq, he⟩ | ⟨i, _, ⟨q, _, he⟩ | ⟨q, _, he⟩⟩
  · rw [mem_stringNodesL] at hq
    obtain ⟨j, _, hqe⟩ := hq
    subst hqe
    rw [← he]
    show (nodeFlow (gridL ns nr)
      (Node.str { i := 0, j := 2 * (j : Int) + 1, color := .initial_string_color j })).isSome = true
    rw [nodeFlow_str_gridL _ _ _ rfl]
    rfl
  · rw [← he]
    show (nodeFlow (gridL ns nr) (Node.edge q.2)).isSome = true
    rw [nodeFlow_of_enters (gridL ns nr) (Node.edge q.2) q.2.enter_and_exit
      q.2.enter_and_exit rfl rfl]
    rfl
  · rw [← he]
    show (nodeFlow (gridL ns nr) (Node.knot q.2)).isSome = true
    rw [nodeFlow_of_enters (gridL ns nr) (Node.knot q.2) q.2.enter_left
      q.2.enter_right rfl rfl]
    rfl

theorem nodeFlow_shape (g : Grid) (node : Node) :
    ∀ c ∈ (nodeFlow g node).getD [], ∃ a b, c = Constraint.ceqc a b := by
  intro c hc
  cases node with
  | str n =>
    cases hUL : g.has_upper_left (.str n) <;> cases hUR : g.has_upper_right (.str n) <;>
      simp [nodeFlow, hUL, hUR, Node.enter_left?, Node.enter_right?] at hc
  | edge n =>
    rw [nodeFlow_of_enters g (Node.edge n) n.enter_and_exit n.enter_and_exit rfl rfl] at hc
    simp only [Option.getD_some, List.mem_append, Option.mem_toList, Option.mem_map] at hc
    rcases hc with ⟨q, _, he⟩ | ⟨q, _, he⟩ <;> exact ⟨_, _, he.symm⟩
  | knot n =>
    rw [nodeFlow_of_enters g (Node.knot n) n.enter_left n.enter_right rfl rfl] at hc
    simp only [Option.getD_some, List.mem_append, Option.mem_toList, Option.mem_map] at hc
    rcases hc with ⟨q, _, he⟩ | ⟨q, _, he⟩ <;> exact ⟨_, _, he.symm⟩

theorem knot_sat_step (σ : Assignment) (n : KnotNode)
    (h : ∀ c ∈ knotConstraints n, Constraint.sat σ c = true) :
    (σ.cval n.exit_left, σ.cval n.exit_right, σ.cval n.color) =
      knotStep (σ.kval n.knot) (σ.cval n.enter_left) (σ.cval n.enter_right) := by
  simp only [knotConstraints, List.forall_mem_cons, List.forall_mem_nil, and_true] at h
  obtain ⟨s1, s2, s3, s4, -⟩ := h
  cases hk : σ.kval n.knot
  case LR =>
    rw [Constraint.sat, hk, if_pos rfl] at s1
    simp only [List.all_cons, List.all_nil, Bool.and_eq_true, decide_eq_true_eq] at s1
    simp [knotStep, s1.1, s1.2.1, s1.2.2.1]
  case RL =>
    rw [Constraint.sat, hk, if_pos rfl] at s2
    simp only [List.all_cons, List.all_nil, Bool.and_eq_true, decide_eq_true_eq] at s2
    simp [knotStep, s2.1, s2.2.1, s2.2.2.1]
  case LL =>
    rw [Constraint.sat, hk, if_pos rfl] at s3
    simp only [List.all_cons, List.all_nil, Bool.and_eq_true, decide_eq_true_eq] at s3
    simp [knotStep, s3.1, s3.2.1, s3.2.2.1]
  case RR =>
    rw [Constraint.sat, hk, if_pos rfl] at s4
    simp only [List.all_cons, List.all_nil, Bool.and_eq_true, decide_eq_true_eq] at s4
    simp [knotStep, s4.1, s4.2.1, s4.2.2.1]

/-- C10: in a grid built by `setup_grid` no node at row 0 has an upper-left
or upper-right predecessor present (the computed predecessor rows are
negative), so `setup_constraints` never accesses the undefined
`enter_left`/`enter_right` of an `InitialStringNode` and the flow loop is
total: it returns `some` constraint list. -/
theorem C10_row0_no_predecessors (ns nr : Nat) (hev : ns % 2 = 0) (h2 : 2 ≤ ns)
    (h1 : 1 ≤ nr) :
    (setup_constraints (setup_grid ns nr)).isSome = true ∧
    ∀ p ∈ (setup_grid ns nr).nodes, p.1.1 = 0 →
      (setup_grid ns nr).has_upper_left p.2 = false ∧
      (setup_grid ns nr).has_upper_right p.2 = false := by
  rw [setup_grid_eq ns nr (by omega)]
  constructor
  · rw [setup_constraints_eq _ (gridL_flow_isSome ns nr)]
    rfl
  · intro p hp hrow
    rcases mem_gridL_nodes.mp hp with ⟨q, hq, he⟩ | ⟨i, _, ⟨q, hq, he⟩ | ⟨q, hq, he⟩⟩
    · rw [mem_stringNodesL] at hq
      obtain ⟨j, _, hqe⟩ := hq
      subst hqe
      rw [← he]
      exact ⟨has_upper_left_row0 ns nr _ rfl, has_upper_right_row0 ns nr _ rfl⟩
    · obtain ⟨_, hfst, _⟩ := mem_edgeRowL hq
      rw [← he] at hrow
      rw [hrow] at hfst
      obtain ⟨h3, _, _⟩ := mem_edgeRowL hq
      omega
    · have hfst := fst_mem_knotRows hq
      rw [rowKnotsL_eq_upTo, mem_rowKnotsUpTo] at hq
      obtain ⟨j, _, hk, hqe⟩ := hq
      obtain ⟨_, _, hpar⟩ := knotAtL_ne_zero hk
      rw [← he] at hrow
      rw [hqe] at hfst
      rw [hqe] at hrow
      simp at hrow
      omega

/-- C10 witness at `ns = 2, nr = 1`: the initial string node at (0, 1) has
no predecessors and constraint generation succeeds. -/
theorem C10_witness :
    (setup_constraints (setup_grid 2 1)).isSome = true ∧
    (setup_grid 2 1).has_upper_left
      (Node.str { i := 0, j := 1, color := .initial_string_color 0 }) = false := by
  refine ⟨(C10_row0_no_predecessors 2 1 (by decide) (by decide) (by decide)).1, ?_⟩
  exact ((C10_row0_no_predecessors 2 1 (by decide) (by decide) (by decide)).2
    ((0, 1), Node.str { i := 0, j := 1, color := .initial_string_color 0 })
    (by decide) rfl).1

/-- C1: for every knot node of a grid built by `setup_grid`, the generated
knot-semantics constraints are exactly the four guarded rules (each emitted
rule is in the constraint list, and every guarded constraint in the list is
one of some knot node's four rules); in any assignment satisfying them the
4-valued knot variable equals exactly one guard value, and that branch
determines (exit_left, exit_right, color) from (enter_left, enter_right)
via `knotStep`. -/
theorem C1_knot_semantics (ns nr : Nat) (hev : ns % 2 = 0) (h2 : 2 ≤ ns) (h1 : 1 ≤ nr)
    (cs : List Constraint) (hcs : setup_constraints (setup_grid ns nr) = some cs) :
    (∀ p ∈ (setup_grid ns nr).knot_nodes, ∀ c ∈ knotConstraints p.2, c ∈ cs) ∧
    (∀ kv k eqs, Constraint.kguard kv k eqs ∈ cs →
      ∃ p ∈ (setup_grid ns nr).knot_nodes, Constraint.kguard kv k eqs ∈ knotConstraints p.2) ∧
    (∀ p ∈ (setup_grid ns nr).knot_nodes, ∀ σ : Assignment,
      (∀ c ∈ knotConstraints p.2, Constraint.sat σ c = true) →
      (∃! k : KnotType, σ.kval p.2.knot = k) ∧
      (σ.cval p.2.exit_left, σ.cval p.2.exit_right, σ.cval p.2.color) =
        knotStep (σ.kval p.2.knot) (σ.cval p.2.enter_left) (σ.cval p.2.enter_right)) := by
  rw [setup_grid_eq ns nr (by omega)] at hcs ⊢
  rw [setup_constraints_eq _ (gridL_flow_isSome ns nr)] at hcs
  have hcse : cs = (gridL ns nr).nodes.flatMap (fun p => (nodeFlow (gridL ns nr) p.2).getD []) ++
      (gridL ns nr).knot_nodes.flatMap (fun p => knotConstraints p.2) := by
    injection hcs.symm
  subst hcse
  refine ⟨?_, ?_, ?_⟩
  · intro p hp c hc
    exact List.mem_append.mpr (Or.inr (List.mem_flatMap.mpr ⟨p, hp, hc⟩))
  · intro kv k eqs hmem
    rcases List.mem_append.mp hmem with hmem | hmem
    · rcases List.mem_flatMap.mp hmem with ⟨p, hp, hc⟩
      obtain ⟨a, b, he⟩ := nodeFlow_shape (gridL ns nr) p.2 _ hc
      exact absurd he (by simp)
    · rcases List.mem_flatMap.mp hmem with ⟨p, hp, hc⟩
      exact ⟨p, hp, hc⟩
  · intro p _ σ hσ
    exact ⟨⟨σ.kval p.2.knot, rfl, fun k hk => hk.symm⟩, knot_sat_step σ p.2 hσ⟩

/-- C1 witness at `ns = 2, nr = 1` for the knot at (1, 2) under the explicit
assignment `mkAssignment 2 1`. -/
theorem C1_witness :
    ((mkAssignment 2 1).cval (VarName.exit_left 1 2),
     (mkAssignment 2 1).cval (VarName.exit_right 1 2),
     (mkAssignment 2 1).cval (VarName.color 1 2)) =
      knotStep ((mkAssignment 2 1).kval (VarName.knot 1 2))
        ((mkAssignment 2 1).cval (VarName.enter_left 1 2))
        ((mkAssignment 2 1).cval (VarName.enter_right 1 2)) := by
  exact ((C1_knot_semantics 2 1 (by decide) (by decide) (by decide)
      ((setup_constraints (setup_grid 2 1)).get!) (by rfl)).2.2
    ((1, 2), mkKnotNode 1 2) (by decide) (mkAssignment 2 1) (by decide)).2

/-- C7 counterexample: with both entering colors black the four branch
triples are not pairwise distinct (LR and RL, and LL and RR, coincide), so
the claim fails as stated for arbitrary fixed inputs. -/
theorem C7_counterexample :
    ¬ ([KnotType.LR, KnotType.RL, KnotType.LL, KnotType.RR].map
        (fun k => knotStep k Color.black Color.black)).Pairwise (· ≠ ·) := by
  decide

/-- C7 (amended): when the two entering colors differ, the four knot-type
branches yield pairwise distinct (exit_left, exit_right, color) triples. -/
theorem C7_distinct_triples (a b : Color) (h : a ≠ b) :
    ([KnotType.LR, KnotType.RL, KnotType.LL, KnotType.RR].map
        (fun k => knotStep k a b)).Pairwise (· ≠ ·) := by
  cases a <;> cases b
  · exact absurd rfl h
  · decide
  · decide
  · exact absurd rfl h

/-- C7 witness: the four triples at (black, white). -/
theorem C7_witness :
    Color.black ≠ Color.white ∧
    ([KnotType.LR, KnotType.RL, KnotType.LL, KnotType.RR].map
        (fun k => knotStep k Color.black Color.white)).Pairwise (· ≠ ·) :=
  ⟨by decide, C7_distinct_triples Color.black Color.white (by decide)⟩

theorem knotAtL_iff {w : Nat} {i j : Int} :
    knotAtL w i j = true ↔
      j ≠ 0 ∧ j ≠ (w : Int) - 1 ∧
        (i % 4 = 1 ∧ j % 4 = 2 ∨ i % 4 = 3 ∧ j % 4 = 0) := by
  simp only [knotAtL, Bool.and_eq_true, Bool.not_eq_true', Bool.or_eq_false_iff,
    Bool.or_eq_true, beq_iff_eq, beq_eq_false_iff_ne]
  tauto

theorem mem_edgeRowL_iff {ns i : Nat} {p : (Int × Int) × EdgeNode} :
    p ∈ edgeRowL ns i ↔
      (i : Int) % 4 = 3 ∧
        (p = (((i : Int), 0),
              { i := (i : Int), j := 0, enter_and_exit := .left_edge (2 * (ns : Int)) }) ∨
         p = (((i : Int), 2 * (ns : Int)),
              { i := (i : Int), j := 2 * (ns : Int),
                enter_and_exit := .right_edge (2 * (ns : Int)) })) := by
  unfold edgeRowL
  by_cases hc : (i : Int) % 4 == 3
  · rw [if_pos hc]
    simp only [List.mem_cons, List.mem_singleton, List.not_mem_nil, or_false]
    have := beq_iff_eq.mp hc
    tauto
  · rw [if_neg hc]
    simp only [List.not_mem_nil, false_iff, not_and]
    intro h3
    exact absurd (beq_iff_eq.mpr h3) hc

/-- C3: a grid built by `setup_grid` has width `2·ns + 1`, height `2·nr`,
exactly `ns` initial-string nodes at row 0 and odd columns, edge nodes
exactly at columns 0 and `width - 1` of rows `≡ 3 (mod 4)`, and knot nodes
exactly at the interior staggered-parity coordinates; the 6×3 instance has
exactly the listed coordinates. -/
theorem C3_grid_geometry (ns nr : Nat) (hev : ns % 2 = 0) (h2 : 2 ≤ ns) (h1 : 1 ≤ nr) :
    (setup_grid ns nr).width = 2 * ns + 1 ∧
    (setup_grid ns nr).height = 2 * nr ∧
    (setup_grid ns nr).string_nodes.length = ns ∧
    (∀ k : Int × Int, (∃ n, (k, n) ∈ (setup_grid ns nr).string_nodes) ↔
      k.1 = 0 ∧ ∃ m : Nat, m < ns ∧ k.2 = 2 * (m : Int) + 1) ∧
    (∀ k : Int × Int, (∃ n, (k, n) ∈ (setup_grid ns nr).edge_nodes) ↔
      0 ≤ k.1 ∧ k.1 < 2 * (nr : Int) ∧ k.1 % 4 = 3 ∧ (k.2 = 0 ∨ k.2 = 2 * (ns : Int))) ∧
    (∀ k : Int × Int, (∃ n, (k, n) ∈ (setup_grid ns nr).knot_nodes) ↔
      0 ≤ k.1 ∧ k.1 < 2 * (nr : Int) ∧ 0 < k.2 ∧ k.2 < 2 * (ns : Int) ∧
      (k.1 % 4 = 1 ∧ k.2 % 4 = 2 ∨ k.1 % 4 = 3 ∧ k.2 % 4 = 0)) ∧
    (setup_grid 6 3).knot_nodes.map (fun p => p.1) =
      [(1, 2), (1, 6), (1, 10), (3, 4), (3, 8), (5, 2), (5, 6), (5, 10)] ∧
    (setup_grid 6 3).edge_nodes.map (fun p => p.1) = [(3, 0), (3, 12)] ∧
    (setup_grid 6 3).string_nodes.map (fun p => p.1) =
      [(0, 1), (0, 3), (0, 5), (0, 7), (0, 9), (0, 11)] := by
  rw [setup_grid_eq ns nr (by omega), setup_grid_eq 6 3 (by omega)]
  refine ⟨rfl, rfl, ?_, ?_, ?_, ?_, by decide, by decide, by decide⟩
  · simp [gridL, stringNodesL]
  · intro k
    constructor
    · rintro ⟨n, hn⟩
      rw [show (gridL ns nr).string_nodes = stringNodesL ns from rfl, mem_stringNodesL] at hn
      obtain ⟨j, hj, he⟩ := hn
      rw [Prod.mk.injEq] at he
      obtain ⟨hk, -⟩ := he
      subst hk
      exact ⟨rfl, j, hj, rfl⟩
    · rintro ⟨h0, m, hm, h2m⟩
      refine ⟨{ i := 0, j := 2 * (m : Int) + 1, color := .initial_string_color m }, ?_⟩
      rw [show (gridL ns nr).string_nodes = stringNodesL ns from rfl, mem_stringNodesL]
      refine ⟨m, hm, ?_⟩
      rw [Prod.mk.injEq, Prod.ext_iff]
      exact ⟨⟨h0, h2m⟩, rfl⟩
  · intro k
    constructor
    · rintro ⟨n, hn⟩
      rw [show (gridL ns nr).edge_nodes = (List.range (2 * nr)).flatMap (edgeRowL ns) from rfl,
        List.mem_flatMap] at hn
      obtain ⟨i, hi, hp⟩ := hn
      rw [List.mem_range] at hi
      rw [mem_edgeRowL_iff] at hp
      obtain ⟨h3, hp | hp⟩ := hp <;> rw [Prod.mk.injEq] at hp <;> obtain ⟨hk, -⟩ := hp <;>
        subst hk <;> dsimp only <;>
        exact ⟨by omega, by exact_mod_cast (by omega : i < 2 * nr), h3, by omega⟩
    · rintro ⟨h0, hlt, h3, hcol⟩
      refine ⟨{ i := k.1, j := k.2, enter_and_exit :=
        if k.2 = 0 then .left_edge (2 * (ns : Int)) else .right_edge (2 * (ns : Int)) }, ?_⟩
      rw [show (gridL ns nr).edge_nodes = (List.range (2 * nr)).flatMap (edgeRowL ns) from rfl,
        List.mem_flatMap]
      refine ⟨k.1.toNat, ?_, ?_⟩
      · rw [List.mem_range]
        omega
      · rw [mem_edgeRowL_iff]
        have hins : ((k.1.toNat : Nat) : Int) = k.1 := Int.toNat_of_nonneg h0
        rw [hins]
        refine ⟨h3, ?_⟩
        rcases hcol with hcol | hcol
        · left
          rw [hcol]
          simp [hcol, Prod.ext_iff]
        · right
          rw [hcol]
          have : ¬(2 * (ns : Int) = 0) := by omega
          simp [hcol, Prod.ext_iff, this]
  · intro k
    constructor
    · rintro ⟨n, hn⟩
      rw [show (gridL ns nr).knot_nodes =
        (List.range (2 * nr)).flatMap (rowKnotsL (2 * ns + 1)) from rfl,
        List.mem_flatMap] at hn
      obtain ⟨i, hi, hp⟩ := hn
      rw [List.mem_range] at hi
      rw [rowKnotsL_eq_upTo, mem_rowKnotsUpTo] at hp
      obtain ⟨j, hj, hk, he⟩ := hp
      rw [Prod.mk.injEq] at he
      obtain ⟨hke, -⟩ := he
      subst hke
      dsimp only
      rw [knotAtL_iff] at hk
      obtain ⟨hj0, hjw, hpar⟩ := hk
      refine ⟨by omega, by exact_mod_cast (by omega : i < 2 * nr), ?_, ?_, hpar⟩
      · omega
      · have : (j : Int) < (2 * ns + 1 : Nat) := by exact_mod_cast hj
        push_cast at this hjw
        omega
    · rintro ⟨h0, hlt, hc0, hcw, hpar⟩
      refine ⟨mkKnotNode k.1 k.2, ?_⟩
      rw [show (gridL ns nr).knot_nodes =
        (List.range (2 * nr)).flatMap (rowKnotsL (2 * ns + 1)) from rfl,
        List.mem_flatMap]
      refine ⟨k.1.toNat, ?_, ?_⟩
      · rw [List.mem_range]
        omega
      · rw [rowKnotsL_eq_upTo, mem_rowKnotsUpTo]
        refine ⟨k.2.toNat, by omega, ?_, ?_⟩
        · rw [knotAtL_iff]
          rw [Int.toNat_of_nonneg (by omega : (0 : Int) ≤ k.1),
            Int.toNat_of_nonneg (by omega : (0 : Int) ≤ k.2)]
          push_cast
          refine ⟨by omega, by omega, hpar⟩
        · rw [Int.toNat_of_nonneg (by omega : (0 : Int) ≤ k.1),
            Int.toNat_of_nonneg (by omega : (0 : Int) ≤ k.2)]

/-- C3 witness at `ns = 2, nr = 1`: the width and the presence of a knot at
(1, 2). -/
theorem C3_witness :
    (setup_grid 2 1).width = 2 * 2 + 1 ∧
    (∃ n, ((1, 2), n) ∈ (setup_grid 2 1).knot_nodes) :=
  ⟨(C3_grid_geometry 2 1 (by decide) (by decide) (by decide)).1,
   ((C3_grid_geometry 2 1 (by decide) (by decide) (by decide)).2.2.2.2.2.1
     ((1 : Int), (2 : Int))).mpr (by decide)⟩

/-- The six solver variables of a knot node. -/
def KnotNode.vars (n : KnotNode) : List VarName :=
  [n.enter_left, n.enter_right, n.exit_left, n.exit_right, n.knot, n.color]

/-- The grid coordinates encoded in a knot-attribute variable name. -/
def varOwner : VarName → Option (Int × Int)
  | .enter_left i j => some (i, j)
  | .enter_right i j => some (i, j)
  | .exit_left i j => some (i, j)
  | .exit_right i j => some (i, j)
  | .knot i j => some (i, j)
  | .color i j => some (i, j)
  | _ => none

theorem varOwner_mkKnot {i j : Int} {v : VarName} (h : v ∈ (mkKnotNode i j).vars) :
    varOwner v = some (i, j) := by
  simp only [KnotNode.vars, mkKnotNode, List.mem_cons, List.not_mem_nil, or_false] at h
  rcases h with rfl | rfl | rfl | rfl | rfl | rfl <;> rfl

theorem gridL_knot_shape {ns nr : Nat} {p : (Int × Int) × KnotNode}
    (hp : p ∈ (gridL ns nr).knot_nodes) : p = (p.1, mkKnotNode p.1.1 p.1.2) := by
  rw [show (gridL ns nr).knot_nodes =
    (List.range (2 * nr)).flatMap (rowKnotsL (2 * ns + 1)) from rfl, List.mem_flatMap] at hp
  obtain ⟨i, _, hp⟩ := hp
  rw [rowKnotsL_eq_upTo, mem_rowKnotsUpTo] at hp
  obtain ⟨j, _, _, he⟩ := hp
  rw [he]

theorem gridL_string_shape {ns nr : Nat} {p : (Int × Int) × InitialStringNode}
    (hp : p ∈ (gridL ns nr).string_nodes) :
    ∃ m : Nat, m < ns ∧
      p = ((0, 2 * (m : Int) + 1),
           { i := 0, j := 2 * (m : Int) + 1, color := .initial_string_color m }) := by
  rw [show (gridL ns nr).string_nodes = stringNodesL ns from rfl, mem_stringNodesL] at hp
  exact hp

/-- C5 (amended): variable identity in a built grid.  Knot-node and
initial-string variables are determined by (kind, row, column) and two
distinct knot nodes, two distinct string nodes, or a knot and a string node
never share a variable.  Edge nodes however are all named from the leaked
loop value `width - 1 = 2·ns` regardless of their own row, so every edge
node on the same side carries the same variable. -/
theorem C5_variable_identity (ns nr : Nat) (hev : ns % 2 = 0) (h2 : 2 ≤ ns) (h1 : 1 ≤ nr) :
    (∀ p ∈ (setup_grid ns nr).knot_nodes, ∀ q ∈ (setup_grid ns nr).knot_nodes,
      p.1 ≠ q.1 → ∀ v ∈ p.2.vars, v ∉ q.2.vars) ∧
    (∀ p ∈ (setup_grid ns nr).string_nodes, ∀ q ∈ (setup_grid ns nr).string_nodes,
      p.1 ≠ q.1 → p.2.color ≠ q.2.color) ∧
    (∀ p ∈ (setup_grid ns nr).knot_nodes, ∀ q ∈ (setup_grid ns nr).string_nodes,
      ∀ v ∈ p.2.vars, v ≠ q.2.color) ∧
    (∀ p ∈ (setup_grid ns nr).edge_nodes,
      p.2.enter_and_exit = (if p.1.2 = 0 then VarName.left_edge (2 * (ns : Int))
        else VarName.right_edge (2 * (ns : Int)))) := by
  rw [setup_grid_eq ns nr (by omega)]
  refine ⟨?_, ?_, ?_, ?_⟩
  · intro p hp q hq hne v hv hv'
    rw [gridL_knot_shape hp] at hv
    rw [gridL_knot_shape hq] at hv'
    have o1 := varOwner_mkKnot hv
    have o2 := varOwner_mkKnot hv'
    rw [o1] at o2
    apply hne
    have := Option.some_inj.mp o2
    rw [Prod.ext_iff] at this ⊢
    exact this
  · intro p hp q hq hne
    obtain ⟨m, _, he⟩ := gridL_string_shape hp
    obtain ⟨m', _, he'⟩ := gridL_string_shape hq
    rw [he, he']
    intro hc
    apply hne
    rw [he, he']
    simp only [VarName.initial_string_color.injEq] at hc
    rw [hc]
  · intro p hp q hq v hv
    rw [gridL_knot_shape hp] at hv
    have o1 := varOwner_mkKnot hv
    obtain ⟨m, _, he'⟩ := gridL_string_shape hq
    rw [he']
    intro hc
    rw [hc] at o1
    exact absurd o1 (by simp [varOwner])
  · intro p hp
    rw [show (gridL ns nr).edge_nodes =
      (List.range (2 * nr)).flatMap (edgeRowL ns) from rfl, List.mem_flatMap] at hp
    obtain ⟨i, _, hp⟩ := hp
    rw [mem_edgeRowL_iff] at hp
    obtain ⟨_, hp | hp⟩ := hp <;> rw [hp] <;> dsimp only
    · rw [if_pos rfl]
    · rw [if_neg (by omega)]

/-- C5 counterexample: in the grid built from `num_strings = 2`,
`num_rows = 4` the edge nodes at rows 3 and 7 carry the same variable name
`left_edge_4` (z3 identifies equally named constants of equal sort), so two
distinct edge nodes share a variable, contradicting the claim. -/
theorem C5_counterexample :
    ((3, 0), ({ i := 3, j := 0, enter_and_exit := .left_edge 4 } : EdgeNode)) ∈
        (setup_grid 2 4).edge_nodes ∧
    ((7, 0), ({ i := 7, j := 0, enter_and_exit := .left_edge 4 } : EdgeNode)) ∈
        (setup_grid 2 4).edge_nodes := by
  constructor <;> decide

/-- C5 witness: two distinct knot nodes of the 2×4 grid share no variable. -/
theorem C5_witness :
    VarName.enter_left 1 2 ∉ (mkKnotNode 5 2).vars :=
  (C5_variable_identity 2 4 (by decide) (by decide) (by decide)).1
    ((1, 2), mkKnotNode 1 2) (by decide) ((5, 2), mkKnotNode 5 2) (by decide)
    (by decide) (VarName.enter_left 1 2) (by decide)

/-- C2: flow conservation in a built grid.  For every node whose upper-left
(resp. upper-right) predecessor coordinate is present, the constraint
`enter_left == predecessor.exit_right` (resp.
`enter_right == predecessor.exit_left`) is emitted; every variable-equality
constraint in the output arises in exactly this way; and the predecessor
offset is one row and column when the node's row is 1 and two rows and
columns otherwise. -/
theorem C2_flow_conservation (ns nr : Nat) (hev : ns % 2 = 0) (h2 : 2 ≤ ns) (h1 : 1 ≤ nr)
    (cs : List Constraint) (hcs : setup_constraints (setup_grid ns nr) = some cs) :
    (∀ p ∈ (setup_grid ns nr).nodes,
      ((setup_grid ns nr).has_upper_left p.2 = true →
        ∃ el q, p.2.enter_left? = some el ∧
          (setup_grid ns nr).upper_left p.2 = some q ∧
          Constraint.ceqc el q.exit_right ∈ cs) ∧
      ((setup_grid ns nr).has_upper_right p.2 = true →
        ∃ er q, p.2.enter_right? = some er ∧
          (setup_grid ns nr).upper_right p.2 = some q ∧
          Constraint.ceqc er q.exit_left ∈ cs)) ∧
    (∀ a b, Constraint.ceqc a b ∈ cs →
      ∃ p ∈ (setup_grid ns nr).nodes,
        (∃ q, (setup_grid ns nr).upper_left p.2 = some q ∧
          p.2.enter_left? = some a ∧ b = q.exit_right) ∨
        (∃ q, (setup_grid ns nr).upper_right p.2 = some q ∧
          p.2.enter_right? = some a ∧ b = q.exit_left)) ∧
    (∀ i j : Int,
      (setup_grid ns nr).upper_left_index i j =
        (if i = 1 then (i - 1, j - 1) else (i - 2, j - 2)) ∧
      (setup_grid ns nr).upper_right_index i j =
        (if i = 1 then (i - 1, j + 1) else (i - 2, j + 2))) := by
  rw [setup_grid_eq ns nr (by omega)] at hcs ⊢
  rw [setup_constraints_eq _ (gridL_flow_isSome ns nr)] at hcs
  have hcse : cs = (gridL ns nr).nodes.flatMap
      (fun p => (nodeFlow (gridL ns nr) p.2).getD []) ++
      (gridL ns nr).knot_nodes.flatMap (fun p => knotConstraints p.2) := by
    injection hcs.symm
  subst hcse
  refine ⟨?_, ?_, ?_⟩
  · intro p hp
    constructor
    · intro hul
      obtain ⟨q, hq⟩ := Option.isSome_iff_exists.mp hul
      have hel : ∃ el, p.2.enter_left? = some el := by
        rcases mem_gridL_nodes.mp hp with ⟨s, hs, he⟩ | ⟨i, _, ⟨s, hs, he⟩ | ⟨s, hs, he⟩⟩
        · obtain ⟨m, _, hse⟩ := mem_stringNodesL.mp hs
          subst hse
          rw [← he] at hul
          have hul' : (gridL ns nr).has_upper_left
              (Node.str { i := 0, j := 2 * (m : Int) + 1,
                          color := .initial_string_color m }) = true := hul
          rw [has_upper_left_row0 ns nr
            (Node.str { i := 0, j := 2 * (m : Int) + 1,
                        color := .initial_string_color m }) rfl] at hul'
          exact absurd hul' (by simp)
        · rw [← he]
          exact ⟨s.2.enter_and_exit, rfl⟩
        · rw [← he]
          exact ⟨s.2.enter_left, rfl⟩
      obtain ⟨el, hel⟩ := hel
      obtain ⟨er, her⟩ : ∃ er, p.2.enter_right? = some er := by
        cases hpn : p.2 with
        | str n => rw [hpn] at hel; exact absurd hel (by simp [Node.enter_left?])
        | edge n => exact ⟨n.enter_and_exit, rfl⟩
        | knot n => exact ⟨n.enter_right, rfl⟩
      refine ⟨el, q, hel, hq, ?_⟩
      apply List.mem_append.mpr
      left
      apply List.mem_flatMap.mpr
      refine ⟨p, hp, ?_⟩
      rw [nodeFlow_of_enters _ _ el er hel her]
      rw [show Grid.upper_left (gridL ns nr) p.2 = some q from hq]
      simp
    · intro hur
      obtain ⟨q, hq⟩ := Option.isSome_iff_exists.mp hur
      have her : ∃ er, p.2.enter_right? = some er := by
        rcases mem_gridL_nodes.mp hp with ⟨s, hs, he⟩ | ⟨i, _, ⟨s, hs, he⟩ | ⟨s, hs, he⟩⟩
        · obtain ⟨m, _, hse⟩ := mem_stringNodesL.mp hs
          subst hse
          rw [← he] at hur
          have hur' : (gridL ns nr).has_upper_right
              (Node.str { i := 0, j := 2 * (m : Int) + 1,
                          color := .initial_string_color m }) = true := hur
          rw [has_upper_right_row0 ns nr
            (Node.str { i := 0, j := 2 * (m : Int) + 1,
                        color := .initial_string_color m }) rfl] at hur'
          exact absurd hur' (by simp)
        · rw [← he]
          exact ⟨s.2.enter_and_exit, rfl⟩
        · rw [← he]
          exact ⟨s.2.enter_right, rfl⟩
      obtain ⟨er, her⟩ := her
      obtain ⟨el, hel⟩ : ∃ el, p.2.enter_left? = some el := by
        cases hpn : p.2 with
        | str n => rw [hpn] at her; exact absurd her (by simp [Node.enter_right?])
        | edge n => exact ⟨n.enter_and_exit, rfl⟩
        | knot n => exact ⟨n.enter_left, rfl⟩
      refine ⟨er, q, her, hq, ?_⟩
      apply List.mem_append.mpr
      left
      apply List.mem_flatMap.mpr
      refine ⟨p, hp, ?_⟩
      rw [nodeFlow_of_enters _ _ el er hel her]
      rw [show Grid.upper_right (gridL ns nr) p.2 = some q from hq]
      simp
  · intro a b hab
    rcases List.mem_append.mp hab with hab | hab
    · obtain ⟨p, hp, hc⟩ := List.mem_flatMap.mp hab
      refine ⟨p, hp, ?_⟩
      cases hpn : p.2 with
      | str n =>
        have : p.1.1 = 0 ∨ 1 ≤ p.1.1 ∧ p.1.1 < 2 * (nr : Int) := by
          have := nodes_key_bound (p := p) (by rw [← gridL_eq_upTo]; exact hp)
          tauto
        rcases mem_gridL_nodes.mp hp with ⟨s, hs, he⟩ | ⟨i, _, ⟨s, hs, he⟩ | ⟨s, hs, he⟩⟩
        · obtain ⟨m, _, hse⟩ := mem_stringNodesL.mp hs
          subst hse
          rw [← he] at hc
          rw [nodeFlow_str_gridL _ _ _ rfl] at hc
          exact absurd hc (by simp)
        · rw [← he] at hpn
          exact absurd hpn (by simp)
        · rw [← he] at hpn
          exact absurd hpn (by simp)
      | edge n =>
        rw [hpn] at hc
        rw [nodeFlow_of_enters (gridL ns nr) (Node.edge n) n.enter_and_exit
          n.enter_and_exit rfl rfl] at hc
        simp only [Option.getD_some, List.mem_append, Option.mem_toList,
          Option.mem_map] at hc
        rcases hc with ⟨q, hq, he⟩ | ⟨q, hq, he⟩
        · rw [Constraint.ceqc.injEq] at he
          exact Or.inl ⟨q, hq,
            by simp [Node.enter_left?, EdgeNode.enter_left, he.1], he.2.symm⟩
        · rw [Constraint.ceqc.injEq] at he
          exact Or.inr ⟨q, hq,
            by simp [Node.enter_right?, EdgeNode.enter_right, he.1], he.2.symm⟩
      | knot n =>
        rw [hpn] at hc
        rw [nodeFlow_of_enters (gridL ns nr) (Node.knot n) n.enter_left
          n.enter_right rfl rfl] at hc
        simp only [Option.getD_some, List.mem_append, Option.mem_toList,
          Option.mem_map] at hc
        rcases hc with ⟨q, hq, he⟩ | ⟨q, hq, he⟩
        · rw [Constraint.ceqc.injEq] at he
          exact Or.inl ⟨q, hq, by simp [Node.enter_left?, he.1], he.2.symm⟩
        · rw [Constraint.ceqc.injEq] at he
          exact Or.inr ⟨q, hq, by simp [Node.enter_right?, he.1], he.2.symm⟩
    · obtain ⟨p, _, hc⟩ := List.mem_flatMap.mp hab
      exact absurd hc (by simp [knotConstraints])
  · intro i j
    constructor <;> by_cases h : i = 1 <;>
      simp [Grid.upper_left_index, Grid.upper_right_index, h]

/-- C2 witness at `ns = 2, nr = 1`: the knot at (1, 2) has its upper-left
flow constraint in the generated list. -/
theorem C2_witness :
    ∃ el q, Node.enter_left? (Node.knot (mkKnotNode 1 2)) = some el ∧
      (setup_grid 2 1).upper_left (Node.knot (mkKnotNode 1 2)) = some q ∧
      Constraint.ceqc el q.exit_right ∈ (setup_constraints (setup_grid 2 1)).get! :=
  ((C2_flow_conservation 2 1 (by decide) (by decide) (by decide)
      ((setup_constraints (setup_grid 2 1)).get!) (by rfl)).1
    ((1, 2), Node.knot (mkKnotNode 1 2)) (by decide)).1 (by decide)

theorem iabs_lt {a b : Int} : iabs a < b ↔ -b < a ∧ a < b := by
  unfold iabs
  split <;> omega

theorem iabs_le {a b : Int} : iabs a ≤ b ↔ -b ≤ a ∧ a ≤ b := by
  unfold iabs
  split <;> omega

theorem iabs_eq_iff {a b : Int} (hb : 0 ≤ b) : iabs a = b ↔ a = b ∨ a = -b := by
  unfold iabs
  split <;> omega

theorem lookup_append_some {α : Type} {t1 t2 : List ((Int × Int) × α)} {k : Int × Int}
    {v : α} (h : t1.lookup k = some v) : (t1 ++ t2).lookup k = some v := by
  simp [List.lookup_append, h]

theorem lookup_append_none {α : Type} {t1 t2 : List ((Int × Int) × α)} {k : Int × Int}
    (h : t1.lookup k = none) : (t1 ++ t2).lookup k = t2.lookup k := by
  simp [List.lookup_append, h]

theorem lookup_none_of_forall {α : Type} {t : List ((Int × Int) × α)} {k : Int × Int}
    (h : ∀ e ∈ t, e.1 ≠ k) : t.lookup k = none := by
  rw [List.lookup_eq_none_iff]
  intro e he
  have := h e he
  simp only [bne_iff_ne, ne_eq]
  exact fun hc => this (by rw [hc])

theorem lookup_isSome_mem {α : Type} {t : List ((Int × Int) × α)} {k : Int × Int}
    (h : (t.lookup k).isSome = true) : ∃ e ∈ t, e.1 = k := by
  rw [List.lookup_isSome_iff] at h
  obtain ⟨p, hp, he⟩ := h
  exact ⟨p, hp, (beq_iff_eq.mp he).symm⟩

theorem serpStep_boundary (g : Grid) (mid : Int)
    (acc : List Constraint × List ((Int × Int) × Nat)) (p : (Int × Int) × KnotNode)
    (hb : iabs (p.1.2 - mid) = p.1.1 - 3) :
    serpStep g mid acc p =
      some (acc.1 ++ [.cvalc p.2.color .black], acc.2 ++ [(p.1, 1)]) := by
  unfold serpStep
  rw [if_pos (beq_iff_eq.mpr hb)]

theorem serpStep_interior (g : Grid) (mid : Int)
    (acc : List Constraint × List ((Int × Int) × Nat)) (p : (Int × Int) × KnotNode)
    (a b : Nat)
    (hnb : ¬ iabs (p.1.2 - mid) = p.1.1 - 3) (hi : iabs (p.1.2 - mid) < p.1.1 - 3)
    (ha : acc.2.lookup (g.upper_left_index p.2.id.1 p.2.id.2) = some a)
    (hb : acc.2.lookup (g.upper_right_index p.2.id.1 p.2.id.2) = some b) :
    serpStep g mid acc p =
      some (acc.1 ++ [.cvalc p.2.color (if (a + b) % 2 == 1 then .black else .white)],
            acc.2 ++ [(p.1, (a + b) % 2)]) := by
  unfold serpStep
  rw [if_neg (fun hc => hnb (beq_iff_eq.mp hc)), if_pos hi, ha, hb]

theorem serpStep_outside (g : Grid) (mid : Int)
    (acc : List Constraint × List ((Int × Int) × Nat)) (p : (Int × Int) × KnotNode)
    (ho : p.1.1 - 3 < iabs (p.1.2 - mid)) :
    serpStep g mid acc p = some acc := by
  unfold serpStep
  rw [if_neg (fun hc => by have := beq_iff_eq.mp hc; omega), if_neg (by omega)]

theorem serpStep_interior_lookups (g : Grid) (mid : Int)
    (acc res : List Constraint × List ((Int × Int) × Nat)) (p : (Int × Int) × KnotNode)
    (hnb : ¬ iabs (p.1.2 - mid) = p.1.1 - 3) (hi : iabs (p.1.2 - mid) < p.1.1 - 3)
    (hrun : serpStep g mid acc p = some res) :
    ∃ a b, acc.2.lookup (g.upper_left_index p.2.id.1 p.2.id.2) = some a ∧
      acc.2.lookup (g.upper_right_index p.2.id.1 p.2.id.2) = some b := by
  unfold serpStep at hrun
  rw [if_neg (fun hc => hnb (beq_iff_eq.mp hc)), if_pos hi] at hrun
  cases ha : acc.2.lookup (g.upper_left_index p.2.id.1 p.2.id.2) with
  | none =>
    rw [ha] at hrun
    cases hb : acc.2.lookup (g.upper_right_index p.2.id.1 p.2.id.2) <;>
      rw [hb] at hrun <;> exact absurd hrun (by simp)
  | some a =>
    rw [ha] at hrun
    cases hb : acc.2.lookup (g.upper_right_index p.2.id.1 p.2.id.2) with
    | none =>
      rw [hb] at hrun
      exact absurd hrun (by simp)
    | some b => exact ⟨a, b, rfl, rfl⟩

theorem serp_fold_spec (g : Grid) (mid : Int) (l : List ((Int × Int) × KnotNode)) :
    ∀ (acc res : List Constraint × List ((Int × Int) × Nat)),
    l.foldlM (serpStep g mid) acc = some res →
    (∀ p ∈ l, p.2 = mkKnotNode p.1.1 p.1.2) →
    List.Pairwise (fun a b => a.1 ≠ b.1) l →
    (∀ e ∈ acc.2, ∀ p ∈ l, e.1 ≠ p.1) →
    ((∃ csExt tExt, res.1 = acc.1 ++ csExt ∧ res.2 = acc.2 ++ tExt ∧
      (∀ c ∈ csExt, ∃ q ∈ l, iabs (q.1.2 - mid) ≤ q.1.1 - 3 ∧
        ∃ col, c = Constraint.cvalc q.2.color col) ∧
      (∀ e ∈ tExt, ∃ q ∈ l, iabs (q.1.2 - mid) ≤ q.1.1 - 3 ∧ e.1 = q.1)) ∧
    (∀ p ∈ l,
      (iabs (p.1.2 - mid) = p.1.1 - 3 →
        Constraint.cvalc p.2.color Color.black ∈ res.1 ∧ res.2.lookup p.1 = some 1) ∧
      (iabs (p.1.2 - mid) < p.1.1 - 3 →
        ∃ a b : Nat, res.2.lookup (g.upper_left_index p.1.1 p.1.2) = some a ∧
          res.2.lookup (g.upper_right_index p.1.1 p.1.2) = some b ∧
          res.2.lookup p.1 = some ((a + b) % 2) ∧
          Constraint.cvalc p.2.color
            (if (a + b) % 2 == 1 then Color.black else Color.white) ∈ res.1) ∧
      (p.1.1 - 3 < iabs (p.1.2 - mid) →
        res.2.lookup p.1 = acc.2.lookup p.1))) := by
  induction l with
  | nil =>
    intro acc res hrun _ _ _
    rw [List.foldlM_nil] at hrun
    obtain rfl : acc = res := by injection hrun
    exact ⟨⟨[], [], by simp, by simp, by simp, by simp⟩, by simp⟩
  | cons p l ih =>
    intro acc res hrun hshape hpw haccl
    rw [List.foldlM_cons] at hrun
    have hshape_l : ∀ q ∈ l, q.2 = mkKnotNode q.1.1 q.1.2 :=
      fun q hq => hshape q (List.mem_cons_of_mem p hq)
    have hpw_l : List.Pairwise (fun a b => a.1 ≠ b.1) l := hpw.of_cons
    have hhead : ∀ q ∈ l, p.1 ≠ q.1 := fun q hq => List.rel_of_pairwise_cons hpw hq
    rcases lt_trichotomy (iabs (p.1.2 - mid)) (p.1.1 - 3) with hc | hc | hc
    · -- interior
      have hnb : ¬ iabs (p.1.2 - mid) = p.1.1 - 3 := by omega
      cases hstep : serpStep g mid acc p with
      | none =>
        rw [hstep] at hrun
        exact absurd hrun (by simp)
      | some acc' =>
        obtain ⟨a, b, ha, hb⟩ := serpStep_interior_lookups g mid acc acc' p hnb hc hstep
        rw [serpStep_interior g mid acc p a b hnb hc ha hb] at hrun
        have hrun' : List.foldlM (serpStep g mid)
            (acc.1 ++ [.cvalc p.2.color
              (if (a + b) % 2 == 1 then Color.black else Color.white)],
             acc.2 ++ [(p.1, (a + b) % 2)]) l = some res := hrun
        have haccl' : ∀ e ∈ acc.2 ++ [(p.1, (a + b) % 2)], ∀ q ∈ l, e.1 ≠ q.1 := by
          intro e he q hq
          rcases List.mem_append.mp he with he | he
          · exact haccl e he q (List.mem_cons_of_mem p hq)
          · rw [List.mem_singleton] at he
            subst he
            exact hhead q hq
        obtain ⟨⟨csExt, tExt, hres1, hres2, hcsE, htE⟩, helem⟩ :=
          ih _ res hrun' hshape_l hpw_l haccl'
        have hsp := hshape p (List.mem_cons_self p l)
        rw [hsp] at ha hb
        have ha' : acc.2.lookup (g.upper_left_index p.1.1 p.1.2) = some a := ha
        have hb' : acc.2.lookup (g.upper_right_index p.1.1 p.1.2) = some b := hb
        have hres2' : res.2 = acc.2 ++ ((p.1, (a + b) % 2) :: tExt) := by
          rw [hres2]
          simp
        have hres1' : res.1 = acc.1 ++ (Constraint.cvalc p.2.color
            (if (a + b) % 2 == 1 then Color.black else Color.white) :: csExt) := by
          rw [hres1]
          simp
        constructor
        · refine ⟨_, _, hres1', hres2', ?_, ?_⟩
          · intro c hcm
            rcases List.mem_cons.mp hcm with hcm | hcm
            · exact ⟨p, List.mem_cons_self p l, by omega, _, hcm⟩
            · obtain ⟨q, hq, hqt, col, hqc⟩ := hcsE c hcm
              exact ⟨q, List.mem_cons_of_mem p hq, hqt, col, hqc⟩
          · intro e he
            rcases List.mem_cons.mp he with he | he
            · exact ⟨p, List.mem_cons_self p l, by omega, by rw [he]⟩
            · obtain ⟨q, hq, hqt, hqe⟩ := htE e he
              exact ⟨q, List.mem_cons_of_mem p hq, hqt, hqe⟩
        · intro q hq
          rcases List.mem_cons.mp hq with rfl | hq
          · refine ⟨fun hbd => absurd hbd (by omega), fun _ => ?_, fun ho => absurd ho (by omega)⟩
            refine ⟨a, b, ?_, ?_, ?_, ?_⟩
            · rw [hres2', List.lookup_append, ha']
              rfl
            · rw [hres2', List.lookup_append, hb']
              rfl
            · have hnone : acc.2.lookup q.1 = none :=
                lookup_none_of_forall (fun e he => haccl e he q (List.mem_cons_self q l))
              rw [hres2', lookup_append_none hnone]
              simp [List.lookup]
            · rw [hres1']
              exact List.mem_append.mpr (Or.inr (List.mem_cons_self _ _))
          · refine ⟨(helem q hq).1, (helem q hq).2.1, fun ho => ?_⟩
            rw [(helem q hq).2.2 ho]
            cases hA : acc.2.lookup q.1 with
            | some v =>
              exact lookup_append_some hA
            | none =>
              rw [lookup_append_none hA]
              exact lookup_none_of_forall (by
                intro e he
                rw [List.mem_singleton] at he
                subst he
                exact hhead q hq)
    · -- boundary
      rw [serpStep_boundary g mid acc p hc] at hrun
      have hrun' : List.foldlM (serpStep g mid)
            (acc.1 ++ [.cvalc p.2.color .black], acc.2 ++ [(p.1, 1)]) l = some res := hrun
      have haccl' : ∀ e ∈ acc.2 ++ [(p.1, 1)], ∀ q ∈ l, e.1 ≠ q.1 := by
        intro e he q hq
        rcases List.mem_append.mp he with he | he
        · exact haccl e he q (List.mem_cons_of_mem p hq)
        · rw [List.mem_singleton] at he
          subst he
          exact hhead q hq
      obtain ⟨⟨csExt, tExt, hres1, hres2, hcsE, htE⟩, helem⟩ :=
        ih _ res hrun' hshape_l hpw_l haccl'
      have hres2' : res.2 = acc.2 ++ ((p.1, 1) :: tExt) := by
        rw [hres2]
        simp
      have hres1' : res.1 = acc.1 ++ (Constraint.cvalc p.2.color Color.black :: csExt) := by
        rw [hres1]
        simp
      constructor
      · refine ⟨_, _, hres1', hres2', ?_, ?_⟩
        · intro c hcm
          rcases List.mem_cons.mp hcm with hcm | hcm
          · exact ⟨p, List.mem_cons_self p l, by omega, _, hcm⟩
          · obtain ⟨q, hq, hqt, col, hqc⟩ := hcsE c hcm
            exact ⟨q, List.mem_cons_of_mem p hq, hqt, col, hqc⟩
        · intro e he
          rcases List.mem_cons.mp he with he | he
          · exact ⟨p, List.mem_cons_self p l, by omega, by rw [he]⟩
          · obtain ⟨q, hq, hqt, hqe⟩ := htE e he
            exact ⟨q, List.mem_cons_of_mem p hq, hqt, hqe⟩
      · intro q hq
        rcases List.mem_cons.mp hq with rfl | hq
        · refine ⟨fun _ => ⟨?_, ?_⟩, fun hi => absurd hi (by omega),
            fun ho => absurd ho (by omega)⟩
          · rw [hres1']
            exact List.mem_append.mpr (Or.inr (List.mem_cons_self _ _))
          · have hnone : acc.2.lookup q.1 = none :=
              lookup_none_of_forall (fun e he => haccl e he q (List.mem_cons_self q l))
            rw [hres2', lookup_append_none hnone]
            simp [List.lookup]
        · refine ⟨(helem q hq).1, (helem q hq).2.1, fun ho => ?_⟩
          rw [(helem q hq).2.2 ho]
          cases hA : acc.2.lookup q.1 with
          | some v =>
            exact lookup_append_some hA
          | none =>
            rw [lookup_append_none hA]
            exact lookup_none_of_forall (by
              intro e he
              rw [List.mem_singleton] at he
              subst he
              exact hhead q hq)
    · -- outside
      rw [serpStep_outside g mid acc p hc] at hrun
      have hrun' : List.foldlM (serpStep g mid) acc l = some res := hrun
      have haccl' : ∀ e ∈ acc.2, ∀ q ∈ l, e.1 ≠ q.1 :=
        fun e he q hq => haccl e he q (List.mem_cons_of_mem p hq)
      obtain ⟨⟨csExt, tExt, hres1, hres2, hcsE, htE⟩, helem⟩ :=
        ih _ res hrun' hshape_l hpw_l haccl'
      constructor
      · refine ⟨csExt, tExt, hres1, hres2, ?_, ?_⟩
        · intro c hcm
          obtain ⟨q, hq, hqt, col, hqc⟩ := hcsE c hcm
          exact ⟨q, List.mem_cons_of_mem p hq, hqt, col, hqc⟩
        · intro e he
          obtain ⟨q, hq, hqt, hqe⟩ := htE e he
          exact ⟨q, List.mem_cons_of_mem p hq, hqt, hqe⟩
      · intro q hq
        rcases List.mem_cons.mp hq with rfl | hq
        · refine ⟨fun hbd => absurd hbd (by omega), fun hi => absurd hi (by omega),
            fun _ => ?_⟩
          rw [hres2]
          cases hA : acc.2.lookup q.1 with
          | some v =>
            exact lookup_append_some hA
          | none =>
            rw [lookup_append_none hA]
            apply lookup_none_of_forall
            intro e he hek
            obtain ⟨s, hs, hst, hse⟩ := htE e he
            rw [hek] at hse
            exact hhead s hs hse
        · refine ⟨(helem q hq).1, (helem q hq).2.1, (helem q hq).2.2⟩

theorem gridL_knots_pairwise (ns nr : Nat) :
    List.Pairwise (fun a b => a.1 ≠ b.1) (gridL ns nr).knot_nodes := by
  rw [show (gridL ns nr).knot_nodes =
    (List.range (2 * nr)).flatMap (rowKnotsL (2 * ns + 1)) from rfl]
  rw [List.pairwise_flatMap]
  constructor
  · intro i _
    rw [rowKnotsL_eq_upTo, rowKnotsUpTo, List.pairwise_filterMap]
    apply List.Pairwise.imp ?_ (List.pairwise_lt_range _)
    intro a b hab x hx y hy
    split at hx
    · split at hy
      · rw [Option.mem_some_iff] at hx hy
        rw [← hx, ← hy]
        simp only [ne_eq, Prod.mk.injEq, not_and]
        intro _ hc
        have : a = b := by exact_mod_cast hc
        omega
      · exact absurd hy (by simp)
    · exact absurd hx (by simp)
  · apply List.Pairwise.imp ?_ (List.pairwise_lt_range _)
    intro a b hab x hx y hy
    have hxa := fst_mem_knotRows hx
    have hyb := fst_mem_knotRows hy
    intro hc
    rw [hc, hyb] at hxa
    have : b = a := by exact_mod_cast hxa
    omega

theorem gridL_knot_shape2 {ns nr : Nat} {p : (Int × Int) × KnotNode}
    (hp : p ∈ (gridL ns nr).knot_nodes) : p.2 = mkKnotNode p.1.1 p.1.2 := by
  have := gridL_knot_shape hp
  rw [Prod.ext_iff] at this
  exact this.2

theorem gridL_mid (ns nr : Nat) : (((gridL ns nr).width : Int) - 1) / 2 = (ns : Int) := by
  rw [gridL_eq_upTo, gridUpTo_width]
  push_cast
  omega

/-- C4: the serpinski target generator on a built grid, with
`mid = (width - 1) / 2`: a knot on the triangle boundary
(`|col - mid| = row - 3`) is constrained to black and recorded with parity
1; an interior knot (`|col - mid| < row - 3`) looks up its two recorded
predecessor parities, records their sum mod 2, and is constrained to black
when that value is 1 and to white otherwise; a knot outside the triangle is
left unconstrained: nothing is recorded for it and no emitted constraint
mentions its color variable. -/
theorem C4_serpinski_constraints (ns nr : Nat) (hev : ns % 2 = 0) (h2 : 2 ≤ ns)
    (h1 : 1 ≤ nr) (cs : List Constraint) (table : List ((Int × Int) × Nat))
    (hrun : setup_serpinski_run (setup_grid ns nr) = some (cs, table)) :
    ∀ p ∈ (setup_grid ns nr).knot_nodes,
      (iabs (p.1.2 - (((setup_grid ns nr).width : Int) - 1) / 2) = p.1.1 - 3 →
        Constraint.cvalc p.2.color Color.black ∈ cs ∧ table.lookup p.1 = some 1) ∧
      (iabs (p.1.2 - (((setup_grid ns nr).width : Int) - 1) / 2) < p.1.1 - 3 →
        ∃ a b : Nat,
          table.lookup ((setup_grid ns nr).upper_left_index p.1.1 p.1.2) = some a ∧
          table.lookup ((setup_grid ns nr).upper_right_index p.1.1 p.1.2) = some b ∧
          table.lookup p.1 = some ((a + b) % 2) ∧
          Constraint.cvalc p.2.color
            (if (a + b) % 2 == 1 then Color.black else Color.white) ∈ cs) ∧
      (p.1.1 - 3 < iabs (p.1.2 - (((setup_grid ns nr).width : Int) - 1) / 2) →
        table.lookup p.1 = none ∧ ∀ col, Constraint.cvalc p.2.color col ∉ cs) := by
  rw [setup_grid_eq ns nr (by omega)] at hrun ⊢
  rw [gridL_mid]
  unfold setup_serpinski_run at hrun
  rw [gridL_mid] at hrun
  obtain ⟨⟨csExt, tExt, hres1, hres2, hcsE, htE⟩, helem⟩ :=
    serp_fold_spec (gridL ns nr) (ns : Int) (gridL ns nr).knot_nodes ([], []) (cs, table)
      hrun (fun p hp => gridL_knot_shape2 hp) (gridL_knots_pairwise ns nr)
      (by intro e he; exact absurd he (List.not_mem_nil e))
  intro p hp
  have h1 := (helem p hp).1
  have h2 := (helem p hp).2.1
  have h3 := (helem p hp).2.2
  refine ⟨h1, h2, fun ho => ⟨?_, ?_⟩⟩
  · rw [h3 ho]
    rfl
  · intro col hcol
    have hres1' : cs = csExt := by
      rw [show (cs, table).1 = cs from rfl] at hres1
      rw [hres1]
      rfl
    rw [hres1'] at hcol
    obtain ⟨q, hq, hqt, col', hqc⟩ := hcsE _ hcol
    have hpc : p.2.color = VarName.color p.1.1 p.1.2 := by rw [gridL_knot_shape2 hp]; rfl
    have hqc2 : q.2.color = VarName.color q.1.1 q.1.2 := by rw [gridL_knot_shape2 hq]; rfl
    rw [Constraint.cvalc.injEq, hpc, hqc2] at hqc
    obtain ⟨hv, -⟩ := hqc
    rw [VarName.color.injEq] at hv
    have hkey : p.1 = q.1 := by
      rw [Prod.ext_iff]
      exact ⟨hv.1, hv.2⟩
    rw [hkey] at ho
    omega

/-- C4 witness at `ns = 4, nr = 2`: the apex knot (3, 4) lies on the
boundary, is constrained to black, and is recorded with value 1. -/
theorem C4_witness :
    Constraint.cvalc (VarName.color 3 4) Color.black ∈
        ((setup_serpinski_run (setup_grid 4 2)).get!).1 ∧
    ((setup_serpinski_run (setup_grid 4 2)).get!).2.lookup (3, 4) = some 1 :=
  (C4_serpinski_constraints 4 2 (by decide) (by decide) (by decide)
      ((setup_serpinski_run (setup_grid 4 2)).get!).1
      ((setup_serpinski_run (setup_grid 4 2)).get!).2 (by rfl)
      ((3, 4), mkKnotNode 3 4) (by decide)).1 (by decide)

/-- C6 counterexample: in the grid from `num_strings = 6, num_rows = 3`
(even, ≥ 2) the interior knot (5, 6) looks up its predecessors (3, 4) and
(3, 8), which lie outside the triangle and were never recorded, so the
lookup fails (a Python KeyError) and the generator aborts. -/
theorem C6_counterexample : setup_serpinski_constraints (setup_grid 6 3) = none := by
  rw [setup_grid_eq 6 3 (by omega)]
  rfl

/-- Keys recorded by the serpinski generator after processing all rows
below `r`: in-grid knot coordinates on or inside the triangle. -/
def triKey (ns : Nat) (r : Nat) (k : Int × Int) : Prop :=
  0 ≤ k.1 ∧ k.1 < (r : Int) ∧ 0 ≤ k.2 ∧ k.2 < 2 * (ns : Int) + 1 ∧
  knotAtL (2 * ns + 1) k.1 k.2 = true ∧ iabs (k.2 - (ns : Int)) ≤ k.1 - 3

theorem interior_parents (ns nr : Nat) (h4 : ns % 4 = 0) (hns : 4 ≤ ns)
    (hnr : 2 * nr ≤ ns + 5) (x y : Int) (hx0 : 0 ≤ x) (hxh : x < 2 * (nr : Int))
    (hy0 : 0 ≤ y) (hyw : y < 2 * (ns : Int) + 1)
    (hk : knotAtL (2 * ns + 1) x y = true) (hint : iabs (y - ns) < x - 3) :
    (knotAtL (2 * ns + 1) (x - 2) (y - 2) = true ∧
      iabs ((y - 2) - ns) ≤ (x - 2) - 3 ∧
      0 ≤ x - 2 ∧ 0 ≤ y - 2 ∧ y - 2 < 2 * (ns : Int) + 1) ∧
    (knotAtL (2 * ns + 1) (x - 2) (y + 2) = true ∧
      iabs ((y + 2) - ns) ≤ (x - 2) - 3 ∧
      0 ≤ y + 2 ∧ y + 2 < 2 * (ns : Int) + 1) ∧
    7 ≤ x := by
  rw [knotAtL_iff] at hk
  rw [knotAtL_iff, knotAtL_iff]
  rw [iabs_lt] at hint
  rw [iabs_le, iabs_le]
  obtain ⟨hj0, hjw, hpar⟩ := hk
  have hnsq : (ns : Int) % 4 = 0 := by omega
  push_cast at hjw ⊢
  rcases hpar with ⟨hx4, hy4⟩ | ⟨hx4, hy4⟩ <;>
    refine ⟨⟨⟨by omega, by omega, by omega⟩, by omega, by omega, by omega, by omega⟩,
      ⟨⟨by omega, by omega, by omega⟩, by omega, by omega, by omega⟩, by omega⟩

theorem serp_row_isSome (ns nr : Nat) (h4 : ns % 4 = 0) (hns : 4 ≤ ns)
    (hnr : 2 * nr ≤ ns + 5) (r : Nat) (hr : r < 2 * nr) :
    ∀ (l : List ((Int × Int) × KnotNode)),
    (∀ p ∈ l, p ∈ rowKnotsL (2 * ns + 1) r) →
    ∀ acc : List Constraint × List ((Int × Int) × Nat),
    (∀ k, triKey ns r k → (acc.2.lookup k).isSome = true) →
    (∀ k, (acc.2.lookup k).isSome = true → triKey ns (r + 1) k) →
    ∃ res, l.foldlM (serpStep (gridL ns nr) (ns : Int)) acc = some res ∧
      (∀ k, (acc.2.lookup k).isSome = true → (res.2.lookup k).isSome = true) ∧
      (∀ k, triKey ns r k → (res.2.lookup k).isSome = true) ∧
      (∀ k, (res.2.lookup k).isSome = true → triKey ns (r + 1) k) ∧
      (∀ p ∈ l, iabs (p.1.2 - (ns : Int)) ≤ p.1.1 - 3 →
        (res.2.lookup p.1).isSome = true) := by
  intro l
  induction l with
  | nil =>
    intro _ acc h1 h2
    exact ⟨acc, rfl, fun k h => h, h1, h2, by simp⟩
  | cons p l ih =>
    intro hl acc h1 h2
    have hpmem := hl p (List.mem_cons_self p l)
    rw [rowKnotsL_eq_upTo, mem_rowKnotsUpTo] at hpmem
    obtain ⟨j, hj, hkat, hpe⟩ := hpmem
    have hp1 : p.1 = ((r : Int), (j : Int)) := by rw [hpe]
    have hp2 : p.2 = mkKnotNode (r : Int) (j : Int) := by rw [hpe]
    have hrow : p.1.1 = (r : Int) := by rw [hp1]
    have hcol : p.1.2 = (j : Int) := by rw [hp1]
    have hbounds : 0 ≤ p.1.1 ∧ p.1.1 < 2 * (nr : Int) ∧ 0 ≤ p.1.2 ∧
        p.1.2 < 2 * (ns : Int) + 1 := by
      rw [hrow, hcol]
      refine ⟨by omega, by exact_mod_cast hr, by omega, ?_⟩
      have : (j : Int) < ((2 * ns + 1 : Nat) : Int) := by exact_mod_cast hj
      push_cast at this
      omega
    have hkatp : knotAtL (2 * ns + 1) p.1.1 p.1.2 = true := by
      rw [hrow, hcol]
      exact hkat
    rcases lt_trichotomy (iabs (p.1.2 - (ns : Int))) (p.1.1 - 3) with hc | hc | hc
    · -- interior: both parents already recorded
      obtain ⟨⟨hkUL, htUL, _, _, _⟩, ⟨hkUR, htUR, _, _⟩, hx7⟩ :=
        interior_parents ns nr h4 hns hnr p.1.1 p.1.2 hbounds.1 hbounds.2.1
          hbounds.2.2.1 hbounds.2.2.2 hkatp hc
      have hULkey : triKey ns r (p.1.1 - 2, p.1.2 - 2) := by
        refine ⟨by dsimp only; omega, by dsimp only; omega, by dsimp only; omega,
          by dsimp only; omega, hkUL, htUL⟩
      have hURkey : triKey ns r (p.1.1 - 2, p.1.2 + 2) := by
        refine ⟨by dsimp only; omega, by dsimp only; omega, by dsimp only; omega,
          by dsimp only; omega, hkUR, htUR⟩
      obtain ⟨a, ha⟩ := Option.isSome_iff_exists.mp (h1 _ hULkey)
      obtain ⟨b, hb⟩ := Option.isSome_iff_exists.mp (h1 _ hURkey)
      have hul : acc.2.lookup ((gridL ns nr).upper_left_index p.2.id.1 p.2.id.2) = some a := by
        rw [hp2]
        show acc.2.lookup ((gridL ns nr).upper_left_index (r : Int) (j : Int)) = some a
        rw [Grid.upper_left_index, if_neg (by rw [beq_iff_eq]; omega)]
        rw [show ((r : Int) - 2, (j : Int) - 2) = (p.1.1 - 2, p.1.2 - 2) by rw [hrow, hcol]]
        exact ha
      have hur : acc.2.lookup ((gridL ns nr).upper_right_index p.2.id.1 p.2.id.2) = some b := by
        rw [hp2]
        show acc.2.lookup ((gridL ns nr).upper_right_index (r : Int) (j : Int)) = some b
        rw [Grid.upper_right_index, if_neg (by rw [beq_iff_eq]; omega)]
        rw [show ((r : Int) - 2, (j : Int) + 2) = (p.1.1 - 2, p.1.2 + 2) by rw [hrow, hcol]]
        exact hb
      have hstep := serpStep_interior (gridL ns nr) (ns : Int) acc p a b (by omega) hc hul hur
      have hacc1' : ∀ k, triKey ns r k →
          (((acc.2 ++ [(p.1, (a + b) % 2)]).lookup k).isSome) = true := by
        intro k hk
        obtain ⟨v, hv⟩ := Option.isSome_iff_exists.mp (h1 k hk)
        rw [lookup_append_some hv]
        rfl
      have hacc2' : ∀ k, (((acc.2 ++ [(p.1, (a + b) % 2)]).lookup k).isSome) = true →
          triKey ns (r + 1) k := by
        intro k hk
        rw [List.lookup_append] at hk
        cases hA : acc.2.lookup k with
        | some v =>
          exact h2 k (by rw [hA]; rfl)
        | none =>
          rw [hA] at hk
          have hkp : k = p.1 := by simpa using hk
          subst hkp
          have hb1 := hbounds.1
          have hb2 := hbounds.2.2.1
          have hb3 := hbounds.2.2.2
          exact ⟨hb1, by push_cast; omega, hb2, hb3, hkatp, by omega⟩
      obtain ⟨res, hres, hmono, hres1, hres2, hresl⟩ :=
        ih (fun q hq => hl q (List.mem_cons_of_mem p hq))
          (acc.1 ++ [.cvalc p.2.color (if (a + b) % 2 == 1 then Color.black else Color.white)],
           acc.2 ++ [(p.1, (a + b) % 2)]) hacc1' hacc2'
      refine ⟨res, ?_, ?_, hres1, hres2, ?_⟩
      · rw [List.foldlM_cons, hstep]
        exact hres
      · intro k hk
        apply hmono
        obtain ⟨v, hv⟩ := Option.isSome_iff_exists.mp hk
        rw [lookup_append_some hv]
        rfl
      · intro q hq _
        rcases List.mem_cons.mp hq with rfl | hq
        · apply hmono
          cases hA : acc.2.lookup q.1 with
          | some v => rw [lookup_append_some hA]; rfl
          | none =>
            rw [lookup_append_none hA]
            simp [List.lookup]
        · exact hresl q hq (by assumption)
    · -- boundary: record 1
      have hstep := serpStep_boundary (gridL ns nr) (ns : Int) acc p hc
      have hacc1' : ∀ k, triKey ns r k →
          (((acc.2 ++ [(p.1, 1)]).lookup k).isSome) = true := by
        intro k hk
        obtain ⟨v, hv⟩ := Option.isSome_iff_exists.mp (h1 k hk)
        rw [lookup_append_some hv]
        rfl
      have hacc2' : ∀ k, (((acc.2 ++ [(p.1, 1)]).lookup k).isSome) = true →
          triKey ns (r + 1) k := by
        intro k hk
        rw [List.lookup_append] at hk
        cases hA : acc.2.lookup k with
        | some v =>
          exact h2 k (by rw [hA]; rfl)
        | none =>
          rw [hA] at hk
          have hkp : k = p.1 := by simpa using hk
          subst hkp
          have hb1 := hbounds.1
          have hb2 := hbounds.2.2.1
          have hb3 := hbounds.2.2.2
          exact ⟨hb1, by push_cast; omega, hb2, hb3, hkatp, by omega⟩
      obtain ⟨res, hres, hmono, hres1, hres2, hresl⟩ :=
        ih (fun q hq => hl q (List.mem_cons_of_mem p hq))
          (acc.1 ++ [.cvalc p.2.color .black], acc.2 ++ [(p.1, 1)]) hacc1' hacc2'
      refine ⟨res, ?_, ?_, hres1, hres2, ?_⟩
      · rw [List.foldlM_cons, hstep]
        exact hres
      · intro k hk
        apply hmono
        obtain ⟨v, hv⟩ := Option.isSome_iff_exists.mp hk
        rw [lookup_append_some hv]
        rfl
      · intro q hq _
        rcases List.mem_cons.mp hq with rfl | hq
        · apply hmono
          cases hA : acc.2.lookup q.1 with
          | some v => rw [lookup_append_some hA]; rfl
          | none =>
            rw [lookup_append_none hA]
            simp [List.lookup]
        · exact hresl q hq (by assumption)
    · -- outside: nothing recorded
      have hstep := serpStep_outside (gridL ns nr) (ns : Int) acc p hc
      obtain ⟨res, hres, hmono, hres1, hres2, hresl⟩ :=
        ih (fun q hq => hl q (List.mem_cons_of_mem p hq)) acc h1 h2
      refine ⟨res, ?_, hmono, hres1, hres2, ?_⟩
      · rw [List.foldlM_cons, hstep]
        exact hres
      · intro q hq hqt
        rcases List.mem_cons.mp hq with rfl | hq
        · omega
        · exact hresl q hq hqt

theorem serp_rows_isSome (ns nr : Nat) (h4 : ns % 4 = 0) (hns : 4 ≤ ns)
    (hnr : 2 * nr ≤ ns + 5) (m : Nat) (hm : m ≤ 2 * nr) :
    ∃ res, ((List.range m).flatMap (rowKnotsL (2 * ns + 1))).foldlM
        (serpStep (gridL ns nr) (ns : Int)) ([], []) = some res ∧
      (∀ k, triKey ns m k → (res.2.lookup k).isSome = true) ∧
      (∀ k, (res.2.lookup k).isSome = true → triKey ns m k) := by
  induction m with
  | zero =>
    refine ⟨([], []), rfl, ?_, ?_⟩
    · intro k hk
      exfalso
      have hk1 := hk.1
      have hk2 := hk.2.1
      push_cast at hk2
      omega
    · intro k hk
      simp [List.lookup] at hk
  | succ m ihm =>
    obtain ⟨acc, hacc, hacc1, hacc2⟩ := ihm (by omega)
    have hacc2' : ∀ k, (acc.2.lookup k).isSome = true → triKey ns (m + 1) k := by
      intro k hk
      obtain ⟨t1, t2, t3, t4, t5, t6⟩ := hacc2 k hk
      exact ⟨t1, by push_cast at t2 ⊢; omega, t3, t4, t5, t6⟩
    obtain ⟨res, hres, hmono, hres1, hres2, hresl⟩ :=
      serp_row_isSome ns nr h4 hns hnr m (by omega)
        (rowKnotsL (2 * ns + 1) m) (fun p hp => hp) acc hacc1 hacc2'
    refine ⟨res, ?_, ?_, hres2⟩
    · rw [List.range_succ, List.flatMap_append, List.foldlM_append, hacc]
      show (rowKnotsL (2 * ns + 1) m ++ []).foldlM (serpStep (gridL ns nr) (ns : Int)) acc
        = some res
      rw [List.append_nil]
      exact hres
    · intro k hk
      obtain ⟨t1, t2, t3, t4, t5, t6⟩ := hk
      rcases lt_or_ge k.1 (m : Int) with hlt | hge
      · exact hmono k (hacc1 k ⟨t1, hlt, t3, t4, t5, t6⟩)
      · have hk1 : k.1 = (m : Int) := by push_cast at t2; omega
        have hk2 : k = ((m : Int), ((k.2.toNat : Nat) : Int)) := by
          have : (k.2.toNat : Int) = k.2 := Int.toNat_of_nonneg t3
          rw [Prod.ext_iff]
          exact ⟨hk1, this.symm⟩
        have hjw : k.2.toNat < 2 * ns + 1 := by omega
        have hmem : (((m : Int), (k.2.toNat : Int)),
            mkKnotNode (m : Int) (k.2.toNat : Int)) ∈ rowKnotsL (2 * ns + 1) m := by
          rw [mem_rowKnotsL]
          refine ⟨k.2.toNat, hjw, ?_, rfl⟩
          rw [show ((k.2.toNat : Nat) : Int) = k.2 from Int.toNat_of_nonneg t3, ← hk1]
          exact t5
        have := hresl _ hmem (by
          dsimp only
          rw [show ((k.2.toNat : Nat) : Int) = k.2 from Int.toNat_of_nonneg t3, ← hk1]
          exact t6)
        rw [hk2]
        exact this

/-- C6: As stated ("for every grid built by setup_grid from even num_strings ≥ 2
and num_rows ≥ 1 ... the two lookups never fail") the claim is false: see
`C6_counterexample`, where `setup_serpinski_constraints (setup_grid 6 3)` crashes
with a KeyError (modelled as `none`) because the triangle's parity pattern is
offset from the knot lattice when `num_strings % 4 ≠ 0`.  Corrected statement:
whenever `num_strings % 4 = 0`, `num_strings ≥ 4`, `num_rows ≥ 1` and
`2 * num_rows ≤ num_strings + 5` (so the triangle never reaches the edge
columns), every interior knot finds both its predecessors already recorded and
the serpinski generator succeeds (`isSome`). -/
theorem C6_no_missing_predecessor (ns nr : Nat) (h4 : ns % 4 = 0) (hns : 4 ≤ ns)
    (hnr1 : 1 ≤ nr) (hfit : 2 * nr ≤ ns + 5) :
    (setup_serpinski_constraints (setup_grid ns nr)).isSome = true := by
  rw [setup_grid_eq ns nr (by omega)]
  obtain ⟨res, hres, -, -⟩ := serp_rows_isSome ns nr h4 hns hfit (2 * nr) le_rfl
  show ((setup_serpinski_run (gridL ns nr)).map (fun r => r.1)).isSome = true
  have hrun : setup_serpinski_run (gridL ns nr) = some res := by
    show (gridL ns nr).knot_nodes.foldlM
      (serpStep (gridL ns nr) ((((gridL ns nr).width : Int) - 1) / 2)) ([], []) = some res
    rw [gridL_mid]
    exact hres
  rw [hrun]
  rfl

/-- Witness for C6: the corrected hypotheses hold at num_strings = 4,
num_rows = 4, and there the serpinski generator indeed succeeds. -/
theorem C6_no_missing_predecessor_witness :
    (setup_serpinski_constraints (setup_grid 4 4)).isSome = true :=
  C6_no_missing_predecessor 4 4 (by decide) (by decide) (by decide) (by decide)

theorem intercalate_go_data_head (s : String) :
    ∀ (l : List String) (acc : String),
    ∃ rest, (String.intercalate.go acc s l).data = acc.data ++ rest := by
  intro l
  induction l with
  | nil =>
    intro acc
    exact ⟨[], (List.append_nil _).symm⟩
  | cons a as ih =>
    intro acc
    obtain ⟨r, hr⟩ := ih (acc ++ s ++ a)
    refine ⟨s.data ++ (a.data ++ r), ?_⟩
    show (String.intercalate.go (acc ++ s ++ a) s as).data = _
    rw [hr, String.data_append, String.data_append]
    simp [List.append_assoc]

theorem intercalate_go_data_last (s : String) :
    ∀ (l : List String) (hl : l ≠ []) (acc : String),
    ∃ pre, (String.intercalate.go acc s l).data = pre ++ (l.getLast hl).data := by
  intro l
  induction l with
  | nil =>
    intro hl
    exact absurd rfl hl
  | cons a as ih =>
    intro hl acc
    cases as with
    | nil =>
      refine ⟨acc.data ++ s.data, ?_⟩
      show ((acc ++ s ++ a)).data = _
      rw [String.data_append, String.data_append, List.getLast_singleton]
    | cons b bs =>
      obtain ⟨pre, hpre⟩ := ih (List.cons_ne_nil b bs) (acc ++ s ++ a)
      refine ⟨pre, ?_⟩
      show (String.intercalate.go (acc ++ s ++ a) s (b :: bs)).data = _
      rw [hpre, List.getLast_cons (List.cons_ne_nil b bs)]

theorem intercalate_data_head (s a : String) (l : List String) :
    ∃ rest, (String.intercalate s (a :: l)).data = a.data ++ rest :=
  intercalate_go_data_head s l a

theorem intercalate_data_last (s a : String) (l : List String) :
    ∃ pre, (String.intercalate s (a :: l)).data =
      pre ++ ((a :: l).getLast (List.cons_ne_nil a l)).data := by
  cases l with
  | nil =>
    refine ⟨[], ?_⟩
    show a.data = [] ++ ([a].getLast (List.cons_ne_nil a [])).data
    rw [List.getLast_singleton, List.nil_append]
  | cons b bs =>
    obtain ⟨pre, hpre⟩ := intercalate_go_data_last s (b :: bs) (List.cons_ne_nil b bs) a
    refine ⟨pre, ?_⟩
    show (String.intercalate.go a s (b :: bs)).data = _
    rw [hpre, List.getLast_cons (List.cons_ne_nil b bs)]

theorem knot_names_data (k : KnotType) :
    ∃ c, (knot_names k).data = [c] ∧ c ≠ '_' := by
  cases k
  · exact ⟨'A', rfl, by decide⟩
  · exact ⟨'B', rfl, by decide⟩
  · exact ⟨'C', rfl, by decide⟩
  · exact ⟨'D', rfl, by decide⟩

theorem chain'_row_head (l : List ((Int × Int) × KnotNode)) :
    ∀ (a : (Int × Int) × KnotNode),
      (a :: l).Chain' (fun x y => (x.1.1 == y.1.1) = true) →
      ∀ p ∈ a :: l, p.1.1 = a.1.1 := by
  induction l with
  | nil =>
    intro a _ p hp
    rw [List.mem_singleton] at hp
    rw [hp]
  | cons b t ih =>
    intro a hch p hp
    rw [List.chain'_cons] at hch
    obtain ⟨hab, ht⟩ := hch
    rw [beq_iff_eq] at hab
    rcases List.mem_cons.mp hp with rfl | hp
    · rfl
    · rw [ih b ht p hp, hab]

theorem chain'_row_eq {l : List ((Int × Int) × KnotNode)}
    (hch : l.Chain' (fun x y => (x.1.1 == y.1.1) = true)) :
    ∀ p ∈ l, ∀ q ∈ l, p.1.1 = q.1.1 := by
  cases l with
  | nil =>
    intro p hp
    exact absurd hp (List.not_mem_nil p)
  | cons a t =>
    intro p hp q hq
    rw [chain'_row_head t a hch p hp, chain'_row_head t a hch q hq]

theorem gridL_knots_pairwise_lex (ns nr : Nat) :
    List.Pairwise (fun a b => a.1.1 < b.1.1 ∨ (a.1.1 = b.1.1 ∧ a.1.2 < b.1.2))
      (gridL ns nr).knot_nodes := by
  rw [show (gridL ns nr).knot_nodes =
    (List.range (2 * nr)).flatMap (rowKnotsL (2 * ns + 1)) from rfl]
  rw [List.pairwise_flatMap]
  constructor
  · intro i _
    rw [rowKnotsL_eq_upTo, rowKnotsUpTo, List.pairwise_filterMap]
    apply List.Pairwise.imp ?_ (List.pairwise_lt_range _)
    intro a b hab x hx y hy
    split at hx
    · split at hy
      · rw [Option.mem_some_iff] at hx hy
        rw [← hx, ← hy]
        refine Or.inr ⟨rfl, ?_⟩
        dsimp only
        exact_mod_cast hab
      · exact absurd hy (by simp)
    · exact absurd hx (by simp)
  · apply List.Pairwise.imp ?_ (List.pairwise_lt_range _)
    intro a b hab x hx y hy
    have hxa := fst_mem_knotRows hx
    have hyb := fst_mem_knotRows hy
    left
    rw [hxa, hyb]
    exact_mod_cast hab

/-- C9: the decode step uses the fixed tables LR→A, RL→B, LL→C, RR→D and
white→PeachPuff, black→PaleVioletRed; for any grid built by `setup_grid`,
`knot_rows` partitions the knot nodes into nonempty maximal runs of equal row
index with strictly ascending columns, and for any assignment the rendered
line of a row is the knot letters joined by `_`, prefixed by the gap marker
`_` exactly when the row's first knot column is not 2 and suffixed by it
exactly when its last knot column is not `width - 3`. -/
theorem C9_decoder (ns nr : Nat) (hns2 : 2 ≤ ns) (hnse : ns % 2 = 0) (hnr : 1 ≤ nr) :
    (knot_names .LR = "A" ∧ knot_names .RL = "B" ∧ knot_names .LL = "C" ∧
      knot_names .RR = "D" ∧ color_names .white = "PeachPuff" ∧
      color_names .black = "PaleVioletRed") ∧
    (setup_grid ns nr).knot_rows.flatten = (setup_grid ns nr).knot_nodes ∧
    (setup_grid ns nr).knot_rows.Chain' (fun r1 r2 => ∃ (h1 : r1 ≠ []) (h2 : r2 ≠ []),
      ( r1.getLast h1).1.1 ≠ (r2.head h2).1.1) ∧
    ∀ row ∈ (setup_grid ns nr).knot_rows, row ≠ [] ∧
      (∀ p ∈ row, ∀ q ∈ row, p.1.1 = q.1.1) ∧
      row.Pairwise (fun p q => p.1.2 < q.1.2) ∧
      ∀ (σ : Assignment) (a : (Int × Int) × KnotNode) (t : List ((Int × Int) × KnotNode))
        (z : (Int × Int) × KnotNode), row = a :: t → row.getLast? = some z →
        (renderRow (setup_grid ns nr) σ row =
          (if a.1.2 == 2 then "" else "_") ++
            String.intercalate "_" (row.map (fun p => knot_names (σ.kval p.2.knot))) ++
          (if z.1.2 == ((setup_grid ns nr).width : Int) - 3 then "" else "_")) ∧
        ((renderRow (setup_grid ns nr) σ row).data.head? = some '_' ↔ ¬ a.1.2 = 2) ∧
        ((renderRow (setup_grid ns nr) σ row).data.getLast? = some '_' ↔
          ¬ z.1.2 = ((setup_grid ns nr).width : Int) - 3) := by
  rw [setup_grid_eq ns nr (by omega)]
  refine ⟨⟨rfl, rfl, rfl, rfl, rfl, rfl⟩, ?_, ?_, ?_⟩
  · exact List.flatten_splitBy _ _
  · apply List.Chain'.imp ?_ (List.chain'_getLast_head_splitBy _ _)
    intro r1 r2 hab
    obtain ⟨h1, h2, hne⟩ := hab
    exact ⟨h1, h2, by simpa using hne⟩
  · intro row hrow
    have hrne := List.ne_nil_of_mem_splitBy _ hrow
    have hchain := List.chain'_of_mem_splitBy hrow
    have huni := chain'_row_eq hchain
    have hsub : row.Sublist (gridL ns nr).knot_nodes := by
      have hs : row.Sublist
          ((gridL ns nr).knot_nodes.splitBy (fun x y => x.1.1 == y.1.1)).flatten :=
        List.sublist_flatten_of_mem hrow
      rwa [List.flatten_splitBy] at hs
    have hlex := (gridL_knots_pairwise_lex ns nr).sublist hsub
    have hcols : row.Pairwise (fun p q => p.1.2 < q.1.2) := by
      refine hlex.imp_of_mem ?_
      intro p q hp hq hpq
      rcases hpq with hlt | ⟨-, hcol⟩
      · exact absurd (huni p hp q hq) (by omega)
      · exact hcol
    refine ⟨hrne, huni, hcols, ?_⟩
    intro σ a t z hrt hz
    subst hrt
    have hqlast : (a :: t).getLast (List.cons_ne_nil a t) = z := by
      rw [List.getLast?_eq_getLast (a :: t) (List.cons_ne_nil a t)] at hz
      exact Option.some.inj hz
    have hEq : renderRow (gridL ns nr) σ (a :: t) =
        (if a.1.2 == 2 then "" else "_") ++
          String.intercalate "_" ((a :: t).map (fun p => knot_names (σ.kval p.2.knot))) ++
          (if z.1.2 == (((gridL ns nr).width : Int)) - 3 then "" else "_") := by
      show (if a.1.2 == 2 then "" else "_") ++
          String.intercalate "_" ((a :: t).map (fun p => knot_names (σ.kval p.2.knot))) ++
          (if ((a :: t).getLast (List.cons_ne_nil a t)).1.2 == (((gridL ns nr).width : Int)) - 3
            then "" else "_") = _
      rw [hqlast]
    obtain ⟨c, hc, hcne⟩ := knot_names_data (σ.kval a.2.knot)
    obtain ⟨cz, hcz, hczne⟩ := knot_names_data (σ.kval z.2.knot)
    obtain ⟨rest, hrest⟩ := intercalate_data_head "_" (knot_names (σ.kval a.2.knot))
      (t.map (fun p => knot_names (σ.kval p.2.knot)))
    obtain ⟨pre, hpre⟩ := intercalate_data_last "_" (knot_names (σ.kval a.2.knot))
      (t.map (fun p => knot_names (σ.kval p.2.knot)))
    have hmapcons : (a :: t).map (fun p => knot_names (σ.kval p.2.knot)) =
        knot_names (σ.kval a.2.knot) :: t.map (fun p => knot_names (σ.kval p.2.knot)) := rfl
    have hlastmap : ((knot_names (σ.kval a.2.knot) ::
          t.map (fun p => knot_names (σ.kval p.2.knot))).getLast
          (List.cons_ne_nil _ _)) = knot_names (σ.kval z.2.knot) := by
      have h1 : ((a :: t).map (fun p => knot_names (σ.kval p.2.knot))).getLast? =
          some (knot_names (σ.kval z.2.knot)) := by
        rw [List.getLast?_map, hz]
        rfl
      rw [hmapcons] at h1
      rw [List.getLast?_eq_getLast _ (List.cons_ne_nil _ _)] at h1
      exact Option.some.inj h1
    rw [hmapcons] at hEq
    refine ⟨by rw [hEq, hmapcons], ?_, ?_⟩
    · rw [hEq]
      by_cases h2 : a.1.2 = 2
      · rw [if_pos (beq_iff_eq.mpr h2)]
        constructor
        · intro hhead
          exfalso
          apply hcne
          have hh : (("" ++ String.intercalate "_" (knot_names (σ.kval a.2.knot) ::
              t.map (fun p => knot_names (σ.kval p.2.knot))) ++
              (if z.1.2 == (((gridL ns nr).width : Int)) - 3 then "" else "_")).data.head?)
              = some c := by
            simp only [String.data_append, List.head?_append]
            rw [hrest, hc]
            rfl
          rw [hh] at hhead
          exact Option.some.inj hhead
        · intro hcon
          exact absurd h2 hcon
      · rw [if_neg (by simpa using h2)]
        constructor
        · intro _
          exact h2
        · intro _
          simp only [String.data_append, List.head?_append]
          rfl
    · rw [hEq]
      by_cases h3 : z.1.2 = (((gridL ns nr).width : Int)) - 3
      · rw [if_pos (beq_iff_eq.mpr h3)]
        constructor
        · intro hlast
          exfalso
          apply hczne
          have hl : ((if a.1.2 == 2 then "" else "_") ++
              String.intercalate "_" (knot_names (σ.kval a.2.knot) ::
                t.map (fun p => knot_names (σ.kval p.2.knot))) ++ "").data.getLast?
              = some cz := by
            simp only [String.data_append, List.getLast?_append]
            rw [hpre, hlastmap, hcz]  -- hpre has getLast form
            simp [List.getLast?_append]
          rw [hl] at hlast
          exact Option.some.inj hlast
        · intro hcon
          exact absurd h3 hcon
      · have hzif : (if z.1.2 == (((gridL ns nr).width : Int)) - 3 then ("" : String)
            else "_") = "_" := if_neg (by simpa using h3)
        rw [hzif]
        constructor
        · intro _
          exact h3
        · intro _
          simp only [String.data_append, List.getLast?_append]
          rfl

/-- Witness for C9 at num_strings = 2, num_rows = 1: the hypotheses hold and
the decoder facts are available for the concrete 5×2 grid. -/
theorem C9_decoder_witness :
    (knot_names .LR = "A" ∧ knot_names .RL = "B" ∧ knot_names .LL = "C" ∧
      knot_names .RR = "D" ∧ color_names .white = "PeachPuff" ∧
      color_names .black = "PaleVioletRed") ∧
    (setup_grid 2 1).knot_rows.flatten = (setup_grid 2 1).knot_nodes ∧
    (setup_grid 2 1).knot_rows.Chain' (fun r1 r2 => ∃ (h1 : r1 ≠ []) (h2 : r2 ≠ []),
      ( r1.getLast h1).1.1 ≠ (r2.head h2).1.1) ∧
    ∀ row ∈ (setup_grid 2 1).knot_rows, row ≠ [] ∧
      (∀ p ∈ row, ∀ q ∈ row, p.1.1 = q.1.1) ∧
      row.Pairwise (fun p q => p.1.2 < q.1.2) ∧
      ∀ (σ : Assignment) (a : (Int × Int) × KnotNode) (t : List ((Int × Int) × KnotNode))
        (z : (Int × Int) × KnotNode), row = a :: t → row.getLast? = some z →
        (renderRow (setup_grid 2 1) σ row =
          (if a.1.2 == 2 then "" else "_") ++
            String.intercalate "_" (row.map (fun p => knot_names (σ.kval p.2.knot))) ++
          (if z.1.2 == ((setup_grid 2 1).width : Int) - 3 then "" else "_")) ∧
        ((renderRow (setup_grid 2 1) σ row).data.head? = some '_' ↔ ¬ a.1.2 = 2) ∧
        ((renderRow (setup_grid 2 1) σ row).data.getLast? = some '_' ↔
          ¬ z.1.2 = ((setup_grid 2 1).width : Int) - 3) :=
  C9_decoder 2 1 (by decide) (by decide) (by decide)

theorem mkA_string (ns nr : Nat) (k : Nat) :
    (mkAssignment ns nr).cval (.initial_string_color k) = scColor (k : Int) := rfl

theorem mkA_left_edge (ns nr : Nat) (j : Int) :
    (mkAssignment ns nr).cval (.left_edge j) = Color.white := rfl

theorem mkA_right_edge (ns nr : Nat) (j : Int) :
    (mkAssignment ns nr).cval (.right_edge j) = Color.black := rfl

theorem mkA_enter_left (ns nr : Nat) (x y : Int) :
    (mkAssignment ns nr).cval (.enter_left x y) = eLA x y := rfl

theorem mkA_enter_right (ns nr : Nat) (x y : Int) :
    (mkAssignment ns nr).cval (.enter_right x y) =
      eRA ((2 * ns + 1 : Nat) : Int) x y := rfl

theorem mkA_exit_left (ns nr : Nat) (x y : Int) :
    (mkAssignment ns nr).cval (.exit_left x y) = negC (rowF x) := rfl

theorem mkA_exit_right (ns nr : Nat) (x y : Int) :
    (mkAssignment ns nr).cval (.exit_right x y) = rowF x := rfl

theorem mkA_color (ns nr : Nat) (x y : Int) :
    (mkAssignment ns nr).cval (.color x y) =
      colorAtA ((setup_serpinski_run (gridL ns nr)).getD ([], [])).2 x y := rfl

theorem mkA_kval (ns nr : Nat) (x y : Int) :
    (mkAssignment ns nr).kval (.knot x y) =
      kvalA ((setup_serpinski_run (gridL ns nr)).getD ([], [])).2 x y := rfl

theorem find?_eq_of_mem_pairwise {α : Type} {l : List ((Int × Int) × α)} {k : Int × Int}
    {v : α} (hpw : l.Pairwise (fun a b => a.1 ≠ b.1)) (hmem : (k, v) ∈ l) :
    l.find? (fun p => p.1 == k) = some (k, v) := by
  induction l with
  | nil => cases hmem
  | cons a t ih =>
    rcases List.mem_cons.mp hmem with rfl | hmem
    · rw [List.find?_cons_of_pos _ (by simp)]
    · have hne : a.1 ≠ k := by
        have hr := List.rel_of_pairwise_cons hpw hmem
        simpa using hr
      rw [List.find?_cons_of_neg _ (by simpa using hne)]
      exact ih hpw.of_cons hmem

theorem gridL_nodes_pairwise (ns nr : Nat) (hns : 1 ≤ ns) :
    List.Pairwise (fun a b => a.1 ≠ b.1) (gridL ns nr).nodes := by
  rw [show (gridL ns nr).nodes = (stringNodesL ns).map (fun p => (p.1, Node.str p.2)) ++
    (List.range (2 * nr)).flatMap (rowNodesL ns) from rfl]
  rw [List.pairwise_append]
  refine ⟨?_, ?_, ?_⟩
  · rw [List.pairwise_map]
    unfold stringNodesL
    rw [List.pairwise_map]
    apply List.Pairwise.imp ?_ (List.pairwise_lt_range _)
    intro a b hab
    dsimp only
    intro hc
    rw [Prod.mk.injEq] at hc
    have : (a : Int) = (b : Int) := by omega
    have : a = b := by exact_mod_cast this
    omega
  · rw [List.pairwise_flatMap]
    constructor
    · intro i _
      unfold rowNodesL
      rw [List.pairwise_append, List.pairwise_map, List.pairwise_map]
      refine ⟨?_, ?_, ?_⟩
      · unfold edgeRowL
        split
        · refine List.pairwise_pair.mpr ?_
          dsimp only
          intro hc
          rw [Prod.mk.injEq] at hc
          omega
        · exact List.Pairwise.nil
      · rw [rowKnotsL_eq_upTo, rowKnotsUpTo, List.pairwise_filterMap]
        apply List.Pairwise.imp ?_ (List.pairwise_lt_range _)
        intro a b hab x hx y hy
        split at hx
        · split at hy
          · rw [Option.mem_some_iff] at hx hy
            rw [← hx, ← hy]
            dsimp only
            intro hc
            rw [Prod.mk.injEq] at hc
            have : (a : Int) = (b : Int) := by omega
            have : a = b := by exact_mod_cast this
            omega
          · exact absurd hy (by simp)
        · exact absurd hx (by simp)
      · intro a ha b hb
        rw [List.mem_map] at ha hb
        obtain ⟨ea, hea, haeq⟩ := ha
        obtain ⟨kb, hkb, hbeq⟩ := hb
        obtain ⟨-, -, hacol⟩ := mem_edgeRowL hea
        obtain ⟨j, hj, hk, hbe⟩ := mem_rowKnotsL.mp hkb
        have hkk := knotAtL_ne_zero hk
        subst hbe haeq hbeq
        dsimp only
        intro hc
        have hc2 : ea.1.2 = (j : Int) := by rw [hc]
        rcases hacol with hcol | hcol <;> rw [hcol] at hc2
        · exact hkk.1 hc2.symm
        · apply hkk.2.1
          rw [← hc2]
          push_cast
          omega
    · apply List.Pairwise.imp ?_ (List.pairwise_lt_range _)
      intro a b hab x hx y hy
      have hxa := (fst_mem_rowNodesL hx).1
      have hyb := (fst_mem_rowNodesL hy).1
      intro hc
      rw [hc, hyb] at hxa
      have : b = a := by exact_mod_cast hxa
      omega
  · intro a ha b hb
    rw [List.mem_map] at ha
    obtain ⟨q, hq, hae⟩ := ha
    obtain ⟨m, hm, hqe⟩ := mem_stringNodesL.mp hq
    rw [List.mem_flatMap] at hb
    obtain ⟨i, hi, hbm⟩ := hb
    have hb1 := fst_mem_rowNodesL hbm
    subst hqe
    rw [← hae]
    dsimp only
    intro hc
    rw [← hc] at hb1
    dsimp only at hb1
    omega

theorem gridL_find?_of_mem {ns nr : Nat} (hns : 1 ≤ ns) {k : Int × Int} {v : Node}
    (hmem : (k, v) ∈ (gridL ns nr).nodes) : (gridL ns nr).find? k = some v := by
  unfold Grid.find?
  rw [find?_eq_of_mem_pairwise (gridL_nodes_pairwise ns nr hns) hmem]
  rfl

theorem mem_nodes_str (ns nr : Nat) (m : Nat) (hm : m < ns) :
    ((0, 2 * (m : Int) + 1),
      Node.str { i := 0, j := 2 * (m : Int) + 1, color := .initial_string_color m }) ∈
      (gridL ns nr).nodes := by
  apply mem_gridL_nodes.mpr
  left
  exact ⟨_, mem_stringNodesL.mpr ⟨m, hm, rfl⟩, rfl⟩

theorem mem_nodes_edgeL (ns nr : Nat) (i : Nat) (hi : i < 2 * nr) (h3 : (i : Int) % 4 = 3) :
    (((i : Int), 0),
      Node.edge { i := (i : Int), j := 0, enter_and_exit := .left_edge (2 * (ns : Int)) }) ∈
      (gridL ns nr).nodes := by
  apply mem_gridL_nodes.mpr
  right
  exact ⟨i, hi, Or.inl ⟨_, mem_edgeRowL_iff.mpr ⟨h3, Or.inl rfl⟩, rfl⟩⟩

theorem mem_nodes_edgeR (ns nr : Nat) (i : Nat) (hi : i < 2 * nr) (h3 : (i : Int) % 4 = 3) :
    (((i : Int), 2 * (ns : Int)),
      Node.edge { i := (i : Int), j := 2 * (ns : Int),
                  enter_and_exit := .right_edge (2 * (ns : Int)) }) ∈
      (gridL ns nr).nodes := by
  apply mem_gridL_nodes.mpr
  right
  exact ⟨i, hi, Or.inl ⟨_, mem_edgeRowL_iff.mpr ⟨h3, Or.inr rfl⟩, rfl⟩⟩

theorem mem_nodes_knot (ns nr : Nat) (x y : Int) (hx0 : 0 ≤ x) (hxh : x < 2 * (nr : Int))
    (hy0 : 0 ≤ y) (hyw : y < 2 * (ns : Int) + 1) (hk : knotAtL (2 * ns + 1) x y = true) :
    ((x, y), Node.knot (mkKnotNode x y)) ∈ (gridL ns nr).nodes := by
  apply mem_gridL_nodes.mpr
  right
  refine ⟨x.toNat, by omega, Or.inr ⟨_, mem_rowKnotsL.mpr
    ⟨y.toNat, by omega, ?_, rfl⟩, ?_⟩⟩
  · rw [Int.toNat_of_nonneg hx0, Int.toNat_of_nonneg hy0]
    exact hk
  · rw [Int.toNat_of_nonneg hx0, Int.toNat_of_nonneg hy0]

theorem find?_gridL_col_out (ns nr : Nat) (k : Int × Int)
    (hk : k.2 < 0 ∨ 2 * (ns : Int) < k.2) : (gridL ns nr).find? k = none := by
  unfold Grid.find?
  have hnone : (gridL ns nr).nodes.find? (fun p => p.1 == k) = none := by
    rw [List.find?_eq_none]
    intro p hp hc
    have he : p.1 = k := beq_iff_eq.mp hc
    have hcol : 0 ≤ p.1.2 ∧ p.1.2 ≤ 2 * (ns : Int) := by
      rcases mem_gridL_nodes.mp hp with ⟨q, hq, hqe⟩ | ⟨i, _, ⟨q, hq, hqe⟩ | ⟨q, hq, hqe⟩⟩
      · obtain ⟨m, hm, hme⟩ := mem_stringNodesL.mp hq
        subst hme
        rw [← hqe]
        dsimp only
        constructor
        · omega
        · push_cast
          omega
      · obtain ⟨-, -, hcol⟩ := mem_edgeRowL hq
        rw [← hqe]
        dsimp only
        rcases hcol with hcol | hcol <;> rw [hcol] <;> omega
      · obtain ⟨j, hj, hkn, hqe2⟩ := mem_rowKnotsL.mp hq
        subst hqe2
        rw [← hqe]
        dsimp only
        constructor
        · omega
        · have : (j : Int) < ((2 * ns + 1 : Nat) : Int) := by exact_mod_cast hj
          push_cast at this
          omega
    rw [he] at hcol
    omega
  rw [hnone]
  rfl

theorem scColor_pred (k : Int) : scColor k = negC (scColor (k - 1)) := by
  unfold scColor negC
  by_cases h : k % 2 = 0
  · have h1 : ¬ (k - 1) % 2 = 0 := by omega
    rw [if_pos (beq_iff_eq.mpr h), if_neg (by simpa using h1)]
  · have h1 : (k - 1) % 2 = 0 := by omega
    rw [if_neg (by simpa using h), if_pos (beq_iff_eq.mpr h1)]

theorem rowF_of_mod1 {x : Int} (h : x % 4 = 1) : rowF x = Color.black := by
  unfold rowF
  simp only [beq_iff_eq]
  rw [if_pos h]

theorem rowF_of_mod3 {x : Int} (h : ¬ x % 4 = 1) : rowF x = Color.white := by
  unfold rowF
  simp only [beq_iff_eq]
  rw [if_neg h]

theorem eRA_negC_eLA (ns : Nat) (hns : 4 ≤ ns) (hev : ns % 2 = 0) (x y : Int)
    (hk : knotAtL (2 * ns + 1) x y = true) :
    eRA ((2 * ns + 1 : Nat) : Int) x y = negC (eLA x y) := by
  obtain ⟨hy0, hyw, hpar⟩ := knotAtL_iff.mp hk
  push_cast at hyw
  unfold eRA eLA
  simp only [beq_iff_eq]
  by_cases hx1 : x = 1
  · subst hx1
    rw [if_pos (show (1 : Int) = 1 from rfl), if_pos (show (1 : Int) = 1 from rfl)]
    have h2 : (y - 2) / 2 = y / 2 - 1 := by
      rcases hpar with ⟨h1, h2⟩ | ⟨h1, h2⟩ <;> omega
    rw [h2]
    exact scColor_pred (y / 2)
  · rw [if_neg hx1, if_neg hx1]
    by_cases hy2 : y = 2
    · subst hy2
      have hne : ¬ (2 : Int) = ((2 * ns + 1 : Nat) : Int) - 3 := by push_cast; omega
      rw [if_neg hne, if_pos (show (2 : Int) = 2 from rfl)]
      have hx3 : ¬ (x - 2) % 4 = 1 := by
        rcases hpar with ⟨h1, h2⟩ | ⟨h1, h2⟩ <;> omega
      rw [rowF_of_mod3 hx3]
    · rw [if_neg hy2]
      by_cases hyw3 : y = ((2 * ns + 1 : Nat) : Int) - 3
      · rw [if_pos hyw3]
        have hx3 : ¬ (x - 2) % 4 = 1 := by
          rcases hpar with ⟨h1, h2⟩ | ⟨h1, h2⟩
          · omega
          · exfalso
            push_cast at hyw3
            omega
        rw [rowF_of_mod3 hx3]
        rfl
      · rw [if_neg hyw3]

theorem knot_guard_sat (ns nr : Nat) (x y : Int)
    (hpair : eRA ((2 * ns + 1 : Nat) : Int) x y = negC (eLA x y)) :
    ∀ c ∈ knotConstraints (mkKnotNode x y),
      Constraint.sat (mkAssignment ns nr) c = true := by
  intro c hc
  have hcol : (mkAssignment ns nr).cval (.color x y) =
      colorAtA ((setup_serpinski_run (gridL ns nr)).getD ([], [])).2 x y := rfl
  have hpair' : eRA (2 * (ns : Int) + 1) x y = negC (eLA x y) := by
    push_cast at hpair
    exact hpair
  simp only [knotConstraints, mkKnotNode, List.mem_cons, List.not_mem_nil, or_false] at hc
  rcases hc with rfl | rfl | rfl | rfl <;>
    cases hE : eLA x y <;> cases hR : rowF x <;>
      cases hC : colorAtA ((setup_serpinski_run (gridL ns nr)).getD ([], [])).2 x y <;>
        simp [Constraint.sat, mkA_kval, kvalA, mkA_exit_left, mkA_exit_right,
          mkA_enter_left, mkA_enter_right, hcol, hE, hR, hC, hpair', negC]

theorem flow_sat_edgeL (ns nr : Nat) (hns : 4 ≤ ns) (i : Nat) (hi : i < 2 * nr)
    (h3 : (i : Int) % 4 = 3) :
    ∀ c ∈ (nodeFlow (gridL ns nr)
      (Node.edge { i := (i : Int), j := 0,
                   enter_and_exit := .left_edge (2 * (ns : Int)) })).getD [],
      Constraint.sat (mkAssignment ns nr) c = true := by
  have hne1 : ¬ ((i : Int) == 1) = true := by
    rw [beq_iff_eq]
    omega
  have hUL : (gridL ns nr).upper_left
      (Node.edge { i := (i : Int), j := 0,
                   enter_and_exit := .left_edge (2 * (ns : Int)) }) = none := by
    show (gridL ns nr).find? ((gridL ns nr).upper_left_index (i : Int) 0) = none
    unfold Grid.upper_left_index
    rw [if_neg hne1]
    exact find?_gridL_col_out ns nr _ (by dsimp only; omega)
  have hK : knotAtL (2 * ns + 1) ((i : Int) - 2) 2 = true := by
    rw [knotAtL_iff]
    refine ⟨by omega, by push_cast; omega, Or.inl ⟨by omega, by decide⟩⟩
  have hUR : (gridL ns nr).upper_right
      (Node.edge { i := (i : Int), j := 0,
                   enter_and_exit := .left_edge (2 * (ns : Int)) }) =
      some (Node.knot (mkKnotNode ((i : Int) - 2) 2)) := by
    show (gridL ns nr).find? ((gridL ns nr).upper_right_index (i : Int) 0) =
      some (Node.knot (mkKnotNode ((i : Int) - 2) 2))
    unfold Grid.upper_right_index
    rw [if_neg hne1]
    exact gridL_find?_of_mem (by omega)
      (mem_nodes_knot ns nr ((i : Int) - 2) 2 (by omega) (by push_cast; omega)
        (by omega) (by push_cast; omega) hK)
  intro c hc
  rw [nodeFlow_of_enters (gridL ns nr)
    (Node.edge { i := (i : Int), j := 0, enter_and_exit := .left_edge (2 * (ns : Int)) })
    (.left_edge (2 * (ns : Int))) (.left_edge (2 * (ns : Int))) rfl rfl, hUL, hUR] at hc
  simp at hc
  subst hc
  show (Constraint.sat (mkAssignment ns nr)
    (Constraint.ceqc (.left_edge (2 * (ns : Int))) (.exit_left ((i : Int) - 2) 2))) = true
  simp [Constraint.sat, mkA_left_edge, mkA_exit_left, rowF_of_mod1 (show ((i : Int) - 2) % 4 = 1 by omega), negC]

theorem flow_sat_edgeR (ns nr : Nat) (hns : 4 ≤ ns) (hev : ns % 2 = 0) (i : Nat)
    (hi : i < 2 * nr) (h3 : (i : Int) % 4 = 3) :
    ∀ c ∈ (nodeFlow (gridL ns nr)
      (Node.edge { i := (i : Int), j := 2 * (ns : Int),
                   enter_and_exit := .right_edge (2 * (ns : Int)) })).getD [],
      Constraint.sat (mkAssignment ns nr) c = true := by
  have hne1 : ¬ ((i : Int) == 1) = true := by
    rw [beq_iff_eq]
    omega
  have hK : knotAtL (2 * ns + 1) ((i : Int) - 2) (2 * (ns : Int) - 2) = true := by
    rw [knotAtL_iff]
    refine ⟨by omega, by push_cast; omega, Or.inl ⟨by omega, by omega⟩⟩
  have hUL : (gridL ns nr).upper_left
      (Node.edge { i := (i : Int), j := 2 * (ns : Int),
                   enter_and_exit := .right_edge (2 * (ns : Int)) }) =
      some (Node.knot (mkKnotNode ((i : Int) - 2) (2 * (ns : Int) - 2))) := by
    show (gridL ns nr).find? ((gridL ns nr).upper_left_index (i : Int) (2 * (ns : Int))) =
      some (Node.knot (mkKnotNode ((i : Int) - 2) (2 * (ns : Int) - 2)))
    unfold Grid.upper_left_index
    rw [if_neg hne1]
    exact gridL_find?_of_mem (by omega)
      (mem_nodes_knot ns nr ((i : Int) - 2) (2 * (ns : Int) - 2) (by omega)
        (by push_cast; omega) (by omega) (by push_cast; omega) hK)
  have hUR : (gridL ns nr).upper_right
      (Node.edge { i := (i : Int), j := 2 * (ns : Int),
                   enter_and_exit := .right_edge (2 * (ns : Int)) }) = none := by
    show (gridL ns nr).find? ((gridL ns nr).upper_right_index (i : Int) (2 * (ns : Int))) = none
    unfold Grid.upper_right_index
    rw [if_neg hne1]
    exact find?_gridL_col_out ns nr _ (by dsimp only; omega)
  intro c hc
  rw [nodeFlow_of_enters (gridL ns nr)
    (Node.edge { i := (i : Int), j := 2 * (ns : Int),
                 enter_and_exit := .right_edge (2 * (ns : Int)) })
    (.right_edge (2 * (ns : Int))) (.right_edge (2 * (ns : Int))) rfl rfl, hUL, hUR] at hc
  simp at hc
  subst hc
  show (Constraint.sat (mkAssignment ns nr)
    (Constraint.ceqc (.right_edge (2 * (ns : Int)))
      (.exit_right ((i : Int) - 2) (2 * (ns : Int) - 2)))) = true
  simp [Constraint.sat, mkA_right_edge, mkA_exit_right,
    rowF_of_mod1 (show ((i : Int) - 2) % 4 = 1 by omega)]

theorem flow_sat_knot (ns nr : Nat) (hns : 4 ≤ ns) (hev : ns % 2 = 0) (i j : Nat)
    (hi : i < 2 * nr) (hj : j < 2 * ns + 1)
    (hk : knotAtL (2 * ns + 1) (i : Int) (j : Int) = true) :
    ∀ c ∈ (nodeFlow (gridL ns nr) (Node.knot (mkKnotNode (i : Int) (j : Int)))).getD [],
      Constraint.sat (mkAssignment ns nr) c = true := by
  obtain ⟨hy0, hyw1, hpar⟩ := knotAtL_iff.mp hk
  push_cast at hyw1
  have hji : (j : Int) < 2 * (ns : Int) + 1 := by omega
  obtain ⟨nUL, hUL, hULsat⟩ : ∃ n', (gridL ns nr).upper_left
      (Node.knot (mkKnotNode (i : Int) (j : Int))) = some n' ∧
      Constraint.sat (mkAssignment ns nr)
        (.ceqc (.enter_left (i : Int) (j : Int)) ( n'.exit_right)) = true := by
    by_cases hx1 : (i : Int) = 1
    · have hy4 : (j : Int) % 4 = 2 := by
        rcases hpar with ⟨h1, h2⟩ | ⟨h1, h2⟩ <;> omega
      obtain ⟨m, hm, hmlt⟩ : ∃ m : Nat, (j : Int) = 2 * (m : Int) + 2 ∧ m < ns :=
        ⟨(j - 2) / 2, by omega, by omega⟩
      refine ⟨Node.str { i := 0, j := 2 * (m : Int) + 1, color := .initial_string_color m },
        ?_, ?_⟩
      · show (gridL ns nr).find? ((gridL ns nr).upper_left_index (i : Int) (j : Int)) = _
        unfold Grid.upper_left_index
        rw [if_pos (beq_iff_eq.mpr hx1)]
        rw [show ((i : Int) - 1, (j : Int) - 1) = ((0 : Int), 2 * (m : Int) + 1) by
          rw [Prod.mk.injEq]; omega]
        exact gridL_find?_of_mem (by omega) (mem_nodes_str ns nr m hmlt)
      · have h1 : eLA (i : Int) (j : Int) = scColor (m : Int) := by
          unfold eLA
          rw [if_pos (beq_iff_eq.mpr hx1), show ((j : Int) - 2) / 2 = (m : Int) by omega]
        show Constraint.sat (mkAssignment ns nr)
          (.ceqc (.enter_left (i : Int) (j : Int)) (.initial_string_color m)) = true
        simp [Constraint.sat, mkA_enter_left, mkA_string, h1]
    · have hx2 : ¬ ((i : Int) == 1) = true := by
        rw [beq_iff_eq]
        exact hx1
      have hx3 : 3 ≤ (i : Int) := by
        rcases hpar with ⟨h1, h2⟩ | ⟨h1, h2⟩ <;> omega
      by_cases hy2 : (j : Int) = 2
      · have him : ((i : Int) - 2) % 4 = 3 := by
          rcases hpar with ⟨h1, h2⟩ | ⟨h1, h2⟩ <;> omega
        refine ⟨Node.edge { i := ((i - 2 : Nat) : Int), j := 0,
                            enter_and_exit := .left_edge (2 * (ns : Int)) }, ?_, ?_⟩
        · show (gridL ns nr).find? ((gridL ns nr).upper_left_index (i : Int) (j : Int)) = _
          unfold Grid.upper_left_index
          rw [if_neg hx2]
          rw [show ((i : Int) - 2, (j : Int) - 2) = (((i - 2 : Nat) : Int), (0 : Int)) by
            rw [Prod.mk.injEq]; push_cast; omega]
          exact gridL_find?_of_mem (by omega)
            (mem_nodes_edgeL ns nr (i - 2) (by omega) (by push_cast; omega))
        · show Constraint.sat (mkAssignment ns nr)
            (.ceqc (.enter_left (i : Int) (j : Int)) (.left_edge (2 * (ns : Int)))) = true
          have h1 : eLA (i : Int) (j : Int) = Color.white := by
            unfold eLA
            simp only [beq_iff_eq]
            rw [if_neg hx1, if_pos hy2]
          simp [Constraint.sat, mkA_enter_left, mkA_left_edge, h1]
      · have hkUL : knotAtL (2 * ns + 1) ((i : Int) - 2) ((j : Int) - 2) = true := by
          rw [knotAtL_iff]
          refine ⟨by omega, by push_cast; omega, ?_⟩
          rcases hpar with ⟨h1, h2⟩ | ⟨h1, h2⟩
          · exact Or.inr ⟨by omega, by omega⟩
          · exact Or.inl ⟨by omega, by omega⟩
        refine ⟨Node.knot (mkKnotNode ((i : Int) - 2) ((j : Int) - 2)), ?_, ?_⟩
        · show (gridL ns nr).find? ((gridL ns nr).upper_left_index (i : Int) (j : Int)) = _
          unfold Grid.upper_left_index
          rw [if_neg hx2]
          exact gridL_find?_of_mem (by omega)
            (mem_nodes_knot ns nr ((i : Int) - 2) ((j : Int) - 2) (by omega) (by omega)
              (by omega) (by omega) hkUL)
        · show Constraint.sat (mkAssignment ns nr)
            (.ceqc (.enter_left (i : Int) (j : Int))
              (.exit_right ((i : Int) - 2) ((j : Int) - 2))) = true
          have h1 : eLA (i : Int) (j : Int) = rowF ((i : Int) - 2) := by
            unfold eLA
            simp only [beq_iff_eq]
            rw [if_neg hx1, if_neg hy2]
          simp [Constraint.sat, mkA_enter_left, mkA_exit_right, h1]
  obtain ⟨nUR, hUR, hURsat⟩ : ∃ n', (gridL ns nr).upper_right
      (Node.knot (mkKnotNode (i : Int) (j : Int))) = some n' ∧
      Constraint.sat (mkAssignment ns nr)
        (.ceqc (.enter_right (i : Int) (j : Int)) ( n'.exit_left)) = true := by
    by_cases hx1 : (i : Int) = 1
    · have hy4 : (j : Int) % 4 = 2 := by
        rcases hpar with ⟨h1, h2⟩ | ⟨h1, h2⟩ <;> omega
      obtain ⟨m, hm, hmlt⟩ : ∃ m : Nat, (j : Int) = 2 * (m : Int) ∧ m < ns :=
        ⟨j / 2, by omega, by omega⟩
      refine ⟨Node.str { i := 0, j := 2 * (m : Int) + 1, color := .initial_string_color m },
        ?_, ?_⟩
      · show (gridL ns nr).find? ((gridL ns nr).upper_right_index (i : Int) (j : Int)) = _
        unfold Grid.upper_right_index
        rw [if_pos (beq_iff_eq.mpr hx1)]
        rw [show ((i : Int) - 1, (j : Int) + 1) = ((0 : Int), 2 * (m : Int) + 1) by
          rw [Prod.mk.injEq]; omega]
        exact gridL_find?_of_mem (by omega) (mem_nodes_str ns nr m hmlt)
      · have h1 : eRA (2 * (ns : Int) + 1) (i : Int) (j : Int) = scColor (m : Int) := by
          unfold eRA
          rw [if_pos (beq_iff_eq.mpr hx1), show (j : Int) / 2 = (m : Int) by omega]
        show Constraint.sat (mkAssignment ns nr)
          (.ceqc (.enter_right (i : Int) (j : Int)) (.initial_string_color m)) = true
        simp [Constraint.sat, mkA_enter_right, mkA_string, h1]
    · have hx2 : ¬ ((i : Int) == 1) = true := by
        rw [beq_iff_eq]
        exact hx1
      have hx3 : 3 ≤ (i : Int) := by
        rcases hpar with ⟨h1, h2⟩ | ⟨h1, h2⟩ <;> omega
      by_cases hyw3 : (j : Int) = 2 * (ns : Int) - 2
      · have him : ((i : Int) - 2) % 4 = 3 := by
          rcases hpar with ⟨h1, h2⟩ | ⟨h1, h2⟩ <;> omega
        refine ⟨Node.edge { i := ((i - 2 : Nat) : Int), j := 2 * (ns : Int),
                            enter_and_exit := .right_edge (2 * (ns : Int)) }, ?_, ?_⟩
        · show (gridL ns nr).find? ((gridL ns nr).upper_right_index (i : Int) (j : Int)) = _
          unfold Grid.upper_right_index
          rw [if_neg hx2]
          rw [show ((i : Int) - 2, (j : Int) + 2) = (((i - 2 : Nat) : Int), 2 * (ns : Int)) by
            rw [Prod.mk.injEq]; push_cast; omega]
          exact gridL_find?_of_mem (by omega)
            (mem_nodes_edgeR ns nr (i - 2) (by omega) (by push_cast; omega))
        · show Constraint.sat (mkAssignment ns nr)
            (.ceqc (.enter_right (i : Int) (j : Int)) (.right_edge (2 * (ns : Int)))) = true
          have h1 : eRA (2 * (ns : Int) + 1) (i : Int) (j : Int) = Color.black := by
            unfold eRA
            simp only [beq_iff_eq]
            rw [if_neg hx1, if_pos (by push_cast; omega)]
          simp [Constraint.sat, mkA_enter_right, mkA_right_edge, h1]
      · have hkUR : knotAtL (2 * ns + 1) ((i : Int) - 2) ((j : Int) + 2) = true := by
          rw [knotAtL_iff]
          refine ⟨by omega, by push_cast; omega, ?_⟩
          rcases hpar with ⟨h1, h2⟩ | ⟨h1, h2⟩
          · exact Or.inr ⟨by omega, by omega⟩
          · exact Or.inl ⟨by omega, by omega⟩
        refine ⟨Node.knot (mkKnotNode ((i : Int) - 2) ((j : Int) + 2)), ?_, ?_⟩
        · show (gridL ns nr).find? ((gridL ns nr).upper_right_index (i : Int) (j : Int)) = _
          unfold Grid.upper_right_index
          rw [if_neg hx2]
          exact gridL_find?_of_mem (by omega)
            (mem_nodes_knot ns nr ((i : Int) - 2) ((j : Int) + 2) (by omega) (by omega)
              (by omega) (by rcases hpar with ⟨h1, h2⟩ | ⟨h1, h2⟩ <;> omega) hkUR)
        · show Constraint.sat (mkAssignment ns nr)
            (.ceqc (.enter_right (i : Int) (j : Int))
              (.exit_left ((i : Int) - 2) ((j : Int) + 2))) = true
          have h1 : eRA (2 * (ns : Int) + 1) (i : Int) (j : Int) =
              negC (rowF ((i : Int) - 2)) := by
            unfold eRA
            simp only [beq_iff_eq]
            rw [if_neg hx1, if_neg (by push_cast; omega)]
          simp [Constraint.sat, mkA_enter_right, mkA_exit_left, h1]
  intro c hc
  rw [nodeFlow_of_enters (gridL ns nr) (Node.knot (mkKnotNode (i : Int) (j : Int)))
    (.enter_left (i : Int) (j : Int)) (.enter_right (i : Int) (j : Int)) rfl rfl,
    hUL, hUR] at hc
  simp at hc
  rcases hc with rfl | rfl
  · exact hULsat
  · exact hURsat

theorem gridL_flow_sat (ns nr : Nat) (hns : 4 ≤ ns) (hev : ns % 2 = 0) :
    ∀ p ∈ (gridL ns nr).nodes, ∀ c ∈ (nodeFlow (gridL ns nr) p.2).getD [],
      Constraint.sat (mkAssignment ns nr) c = true := by
  intro p hp
  rcases mem_gridL_nodes.mp hp with ⟨q, hq, he⟩ | ⟨i, hi, ⟨q, hq, he⟩ | ⟨q, hq, he⟩⟩
  · obtain ⟨m, hm, hqe⟩ := mem_stringNodesL.mp hq
    subst hqe
    rw [← he]
    dsimp only
    rw [nodeFlow_str_gridL ns nr _ rfl]
    intro c hc
    exact absurd hc (List.not_mem_nil c)
  · rw [← he]
    dsimp only
    rcases mem_edgeRowL_iff.mp hq with ⟨h3, hq2 | hq2⟩ <;> subst hq2 <;> dsimp only
    · exact flow_sat_edgeL ns nr hns i hi h3
    · exact flow_sat_edgeR ns nr hns hev i hi h3
  · rw [← he]
    dsimp only
    obtain ⟨j, hj, hkn, hqe⟩ := mem_rowKnotsL.mp hq
    subst hqe
    dsimp only
    exact flow_sat_knot ns nr hns hev i j hi hj hkn

theorem gridL_knots_sat (ns nr : Nat) (hns : 4 ≤ ns) (hev : ns % 2 = 0) :
    ∀ p ∈ (gridL ns nr).knot_nodes, ∀ c ∈ knotConstraints p.2,
      Constraint.sat (mkAssignment ns nr) c = true := by
  intro p hp
  have hsh := gridL_knot_shape2 hp
  have hkn : knotAtL (2 * ns + 1) p.1.1 p.1.2 = true := by
    rw [show (gridL ns nr).knot_nodes =
      (List.range (2 * nr)).flatMap (rowKnotsL (2 * ns + 1)) from rfl] at hp
    rw [List.mem_flatMap] at hp
    obtain ⟨i, _, hpi⟩ := hp
    obtain ⟨j, hj, hk2, hpe⟩ := mem_rowKnotsL.mp hpi
    subst hpe
    exact hk2
  rw [hsh]
  exact knot_guard_sat ns nr p.1.1 p.1.2
    (eRA_negC_eLA ns hns hev p.1.1 p.1.2 hkn)

theorem serp_fold_sat (g : Grid) (mid : Int) (σ : Assignment)
    (l : List ((Int × Int) × KnotNode)) :
    ∀ acc res : List Constraint × List ((Int × Int) × Nat),
    l.foldlM (serpStep g mid) acc = some res →
    (∀ p ∈ l, p.2 = mkKnotNode p.1.1 p.1.2) →
    List.Pairwise (fun a b => a.1 ≠ b.1) l →
    (∀ e ∈ acc.2, ∀ p ∈ l, e.1 ≠ p.1) →
    (∀ x y : Int, ∀ v : Nat, res.2.lookup (x, y) = some v →
      σ.cval (.color x y) = (if v == 1 then Color.black else Color.white)) →
    (∀ c ∈ acc.1, Constraint.sat σ c = true) →
    ∀ c ∈ res.1, Constraint.sat σ c = true := by
  induction l with
  | nil =>
    intro acc res hrun _ _ _ _ hsat
    rw [List.foldlM_nil] at hrun
    obtain rfl : acc = res := by injection hrun
    exact hsat
  | cons p l ih =>
    intro acc res hrun hshape hpw haccl hfin hsat
    rw [List.foldlM_cons] at hrun
    have hshape_l : ∀ q ∈ l, q.2 = mkKnotNode q.1.1 q.1.2 :=
      fun q hq => hshape q (List.mem_cons_of_mem p hq)
    have hpw_l : List.Pairwise (fun a b => a.1 ≠ b.1) l := hpw.of_cons
    have hhead : ∀ q ∈ l, p.1 ≠ q.1 := fun q hq => List.rel_of_pairwise_cons hpw hq
    have hlookfin : ∀ v : Nat, ((acc.2 ++ [(p.1, v)]).lookup p.1 = some v) := by
      intro v
      have hnone : acc.2.lookup p.1 = none :=
        lookup_none_of_forall (fun e he => haccl e he p (List.mem_cons_self p l))
      rw [lookup_append_none hnone]
      simp [List.lookup]
    have hsp := hshape p (List.mem_cons_self p l)
    have hpcolor : p.2.color = VarName.color p.1.1 p.1.2 := by rw [hsp]; rfl
    rcases lt_trichotomy (iabs (p.1.2 - mid)) (p.1.1 - 3) with hc | hc | hc
    · -- interior
      have hnb : ¬ iabs (p.1.2 - mid) = p.1.1 - 3 := by omega
      cases hstep : serpStep g mid acc p with
      | none =>
        rw [hstep] at hrun
        exact absurd hrun (by simp)
      | some acc' =>
        obtain ⟨a, b, ha, hb⟩ := serpStep_interior_lookups g mid acc acc' p hnb hc hstep
        rw [serpStep_interior g mid acc p a b hnb hc ha hb] at hrun
        have hrun' : List.foldlM (serpStep g mid)
            (acc.1 ++ [.cvalc p.2.color
              (if (a + b) % 2 == 1 then Color.black else Color.white)],
             acc.2 ++ [(p.1, (a + b) % 2)]) l = some res := hrun
        have haccl' : ∀ e ∈ acc.2 ++ [(p.1, (a + b) % 2)], ∀ q ∈ l, e.1 ≠ q.1 := by
          intro e he q hq
          rcases List.mem_append.mp he with he | he
          · exact haccl e he q (List.mem_cons_of_mem p hq)
          · rw [List.mem_singleton] at he
            subst he
            exact hhead q hq
        have hplook : res.2.lookup p.1 = some ((a + b) % 2) := by
          obtain ⟨⟨csExt, tExt, hres1, hres2, hcsE, htE⟩, -⟩ :=
            serp_fold_spec g mid l _ res hrun' hshape_l hpw_l haccl'
          have hres2' : res.2 = (acc.2 ++ [(p.1, (a + b) % 2)]) ++ tExt := hres2
          rw [hres2']
          exact lookup_append_some (hlookfin ((a + b) % 2))
        have hnewc : Constraint.sat σ (.cvalc p.2.color
            (if (a + b) % 2 == 1 then Color.black else Color.white)) = true := by
          rw [hpcolor]
          have := hfin p.1.1 p.1.2 ((a + b) % 2)
            (by rw [show (p.1.1, p.1.2) = p.1 from rfl]; exact hplook)
          simp [Constraint.sat, this]
        have hsat' : ∀ c ∈ acc.1 ++ [.cvalc p.2.color
            (if (a + b) % 2 == 1 then Color.black else Color.white)],
            Constraint.sat σ c = true := by
          intro c hcm
          rcases List.mem_append.mp hcm with hcm | hcm
          · exact hsat c hcm
          · rw [List.mem_singleton] at hcm
            subst hcm
            exact hnewc
        exact ih _ res hrun' hshape_l hpw_l haccl' hfin hsat'
    · -- boundary
      rw [serpStep_boundary g mid acc p hc] at hrun
      have hrun' : List.foldlM (serpStep g mid)
          (acc.1 ++ [.cvalc p.2.color .black], acc.2 ++ [(p.1, 1)]) l = some res := hrun
      have haccl' : ∀ e ∈ acc.2 ++ [(p.1, 1)], ∀ q ∈ l, e.1 ≠ q.1 := by
        intro e he q hq
        rcases List.mem_append.mp he with he | he
        · exact haccl e he q (List.mem_cons_of_mem p hq)
        · rw [List.mem_singleton] at he
          subst he
          exact hhead q hq
      have hplook : res.2.lookup p.1 = some 1 := by
        obtain ⟨⟨csExt, tExt, hres1, hres2, hcsE, htE⟩, -⟩ :=
          serp_fold_spec g mid l _ res hrun' hshape_l hpw_l haccl'
        have hres2' : res.2 = (acc.2 ++ [(p.1, 1)]) ++ tExt := hres2
        rw [hres2']
        exact lookup_append_some (hlookfin 1)
      have hnewc : Constraint.sat σ (.cvalc p.2.color .black) = true := by
        rw [hpcolor]
        have := hfin p.1.1 p.1.2 1
          (by rw [show (p.1.1, p.1.2) = p.1 from rfl]; exact hplook)
        simp [Constraint.sat, this]
      have hsat' : ∀ c ∈ acc.1 ++ [.cvalc p.2.color .black],
          Constraint.sat σ c = true := by
        intro c hcm
        rcases List.mem_append.mp hcm with hcm | hcm
        · exact hsat c hcm
        · rw [List.mem_singleton] at hcm
          subst hcm
          exact hnewc
      exact ih _ res hrun' hshape_l hpw_l haccl' hfin hsat'
    · -- outside
      rw [serpStep_outside g mid acc p hc] at hrun
      exact ih acc res hrun hshape_l hpw_l
        (fun e he q hq => haccl e he q (List.mem_cons_of_mem p hq)) hfin hsat

/-- C8: for num_strings = 32 and num_rows = 17 the union of the structural
constraints and the serpinski target constraints is satisfiable — the
explicit assignment `mkAssignment 32 17` witnesses it — and in every
assignment satisfying both constraint lists, every knot node on the triangle
boundary (`abs(col - mid) = row - 3`) has color black, because the serpinski
generator emits exactly that constraint for boundary knots. -/
theorem C8_satisfiable :
    ∃ cs scs, setup_constraints (setup_grid 32 17) = some cs ∧
      setup_serpinski_constraints (setup_grid 32 17) = some scs ∧
      (∃ σ : Assignment, (∀ c ∈ cs, Constraint.sat σ c = true) ∧
        (∀ c ∈ scs, Constraint.sat σ c = true)) ∧
      (∀ σ : Assignment, (∀ c ∈ cs, Constraint.sat σ c = true) →
        (∀ c ∈ scs, Constraint.sat σ c = true) →
        ∀ p ∈ (setup_grid 32 17).knot_nodes,
          iabs (p.1.2 - (((setup_grid 32 17).width : Int) - 1) / 2) = p.1.1 - 3 →
          σ.cval p.2.color = Color.black) := by
  rw [setup_grid_eq 32 17 (by omega)]
  obtain ⟨res, hres, -, -⟩ := serp_rows_isSome 32 17 (by omega) (by omega) (by omega)
    (2 * 17) le_rfl
  have hfold : (gridL 32 17).knot_nodes.foldlM
      (serpStep (gridL 32 17) ((32 : Nat) : Int))
      (([], []) : List Constraint × List ((Int × Int) × Nat)) = some res := hres
  have hrun : setup_serpinski_run (gridL 32 17) = some res := by
    show (gridL 32 17).knot_nodes.foldlM
      (serpStep (gridL 32 17) ((((gridL 32 17).width : Int) - 1) / 2)) ([], []) = some res
    rw [gridL_mid]
    exact hfold
  have hscs : setup_serpinski_constraints (gridL 32 17) = some res.1 := by
    unfold setup_serpinski_constraints
    rw [hrun]
    rfl
  have hcs := setup_constraints_eq (gridL 32 17) (gridL_flow_isSome 32 17)
  refine ⟨_, res.1, hcs, hscs, ?_, ?_⟩
  · refine ⟨mkAssignment 32 17, ?_, ?_⟩
    · intro c hcm
      rcases List.mem_append.mp hcm with hcm | hcm
      · obtain ⟨p, hp, hcp⟩ := List.mem_flatMap.mp hcm
        exact gridL_flow_sat 32 17 (by omega) (by omega) p hp c hcp
      · obtain ⟨p, hp, hcp⟩ := List.mem_flatMap.mp hcm
        exact gridL_knots_sat 32 17 (by omega) (by omega) p hp c hcp
    · have hfin : ∀ x y : Int, ∀ v : Nat, res.2.lookup (x, y) = some v →
          (mkAssignment 32 17).cval (.color x y) =
            (if v == 1 then Color.black else Color.white) := by
        intro x y v hv
        rw [mkA_color]
        rw [show ((setup_serpinski_run (gridL 32 17)).getD ([], [])).2 = res.2 by
          rw [hrun]
          rfl]
        unfold colorAtA
        rw [hv]
      intro c hcm
      exact serp_fold_sat (gridL 32 17) ((32 : Nat) : Int) (mkAssignment 32 17)
        (gridL 32 17).knot_nodes ([], []) res hfold
        (fun q hq => gridL_knot_shape2 hq) (gridL_knots_pairwise 32 17)
        (by simp) hfin (by simp) c hcm
  · intro σ hstr hserp p hp hb
    rw [gridL_mid 32 17] at hb
    obtain ⟨-, helem⟩ := serp_fold_spec (gridL 32 17) ((32 : Nat) : Int)
      (gridL 32 17).knot_nodes ([], []) res hfold
      (fun q hq => gridL_knot_shape2 hq) (gridL_knots_pairwise 32 17) (by simp)
    have hbl := (helem p hp).1 hb
    have hsatc := hserp _ hbl.1
    simpa [Constraint.sat] using hsatc
